import Mathlib

/-!
Verification of the GitMindPro client-side orchestration core against its
specification.  Each definition is a shallow embedding of a function of the
repository; times and JS numbers are modelled by rationals, fallible calls by
`Option`/`Except`, and the asynchronous upstream services by explicit
settle-time/outcome values.
-/

namespace GitMindPro

/-! ## Rate limiter (`src/utils/rateLimiter.ts`)

`RateLimiter.isAllowed` keeps one token bucket per key; the per-key state is
`RateLimitBucket`, the configuration `RateLimitConfig`.  JS numbers (token
counts, milliseconds) are modelled as rationals. -/

/-- `Math.min` on two (rational-valued) JS numbers. -/
def jsMin (a b : ℚ) : ℚ := if a ≤ b then a else b

/-- `Math.ceil` on a rational-valued JS number (`⌈q⌉`, computed from the
reduced fraction so that it evaluates by kernel reduction). -/
def jsCeil (q : ℚ) : ℤ := -((-q.num) / (q.den : ℤ))

theorem jsMin_eq_min (a b : ℚ) : jsMin a b = min a b := (min_def a b).symm

theorem jsCeil_eq_ceil (q : ℚ) : jsCeil q = ⌈q⌉ := by
  have h1 : ⌊-q⌋ = -⌈q⌉ := Int.floor_neg
  have h2 : ⌊-q⌋ = (-q).num / ((-q).den : ℤ) := Rat.floor_def
  have h3 : (-q).num = -q.num := q.neg_num
  have h4 : (-q).den = q.den := q.neg_den
  rw [h3, h4] at h2
  rw [jsCeil, ← h2, h1, neg_neg]

structure RateLimitConfig where
  maxRequests : ℕ
  windowMs : ℚ
deriving Repr, DecidableEq

structure RateLimitBucket where
  tokens : ℚ
  lastRefill : ℚ
deriving Repr, DecidableEq

/-- The value returned by `isAllowed`: `{ allowed: boolean; retryAfter?: number }`.
`Math.ceil` yields an integer, hence `retryAfter : Option ℤ`. -/
structure RateLimitDecision where
  allowed : Bool
  retryAfter : Option ℤ
deriving Repr, DecidableEq

/-- The refill performed at the top of `isAllowed`:
`bucket.tokens = Math.min(maxRequests, bucket.tokens + (timePassed / windowMs) * maxRequests)`. -/
def refillTokens (cfg : RateLimitConfig) (b : RateLimitBucket) (now : ℚ) : ℚ :=
  jsMin (cfg.maxRequests : ℚ) (b.tokens + (now - b.lastRefill) / cfg.windowMs * (cfg.maxRequests : ℚ))

/-- One `isAllowed` call on an existing bucket: refill, then consume a token if
`tokens >= 1`, otherwise deny with `retryAfter = Math.ceil((1 - tokens) * (windowMs / maxRequests))`.
`lastRefill` is set to `now` in both branches. -/
def isAllowedBucket (cfg : RateLimitConfig) (b : RateLimitBucket) (now : ℚ) :
    RateLimitDecision × RateLimitBucket :=
  let t := refillTokens cfg b now
  if 1 ≤ t then
    (⟨true, none⟩, ⟨t - 1, now⟩)
  else
    (⟨false, some (jsCeil ((1 - t) * (cfg.windowMs / (cfg.maxRequests : ℚ))))⟩, ⟨t, now⟩)

/-- `isAllowed` on a possibly-absent bucket: a missing bucket is lazily created
as `{ tokens: maxRequests, lastRefill: now }` before the refill/consume step. -/
def isAllowed (cfg : RateLimitConfig) (bucket : Option RateLimitBucket) (now : ℚ) :
    RateLimitDecision × RateLimitBucket :=
  isAllowedBucket cfg (bucket.getD ⟨(cfg.maxRequests : ℚ), now⟩) now

/-- A sequence of `isAllowed` calls on one key, threading the bucket state. -/
def runCalls (cfg : RateLimitConfig) (b : RateLimitBucket) :
    List ℚ → List RateLimitDecision × RateLimitBucket
  | [] => ([], b)
  | t :: ts =>
    let step := isAllowedBucket cfg b t
    let rest := runCalls cfg step.2 ts
    (step.1 :: rest.1, rest.2)

/-- A sequence of calls on a key that has no bucket yet: the bucket is created
at full capacity at the time of the first call. -/
def runFromFresh (cfg : RateLimitConfig) : List ℚ → List RateLimitDecision
  | [] => []
  | t :: ts => (runCalls cfg ⟨(cfg.maxRequests : ℚ), t⟩ (t :: ts)).1

def countAllowed (ds : List RateLimitDecision) : ℕ := ds.countP (·.allowed)

/-- C1: for every key, `isAllowed` lazily creates the bucket at full capacity,
refills to `min(capacity, tokens + elapsed/window*capacity)`, consumes one token
and allows when the refilled level is at least 1, and otherwise denies with
`retryAfter = ceil((1 - tokens) * window/capacity)`; with `capacity = 1` and
`window = 60000`, two calls on the same key 1 ms apart yield first allowed,
then denied with `retryAfter = 59999 ≈ 60000`. -/
theorem isAllowed_spec (cfg : RateLimitConfig) (now : ℚ) (b : RateLimitBucket) :
    isAllowed cfg none now =
      isAllowedBucket cfg ⟨(cfg.maxRequests : ℚ), now⟩ now ∧
    (1 ≤ refillTokens cfg b now →
      isAllowedBucket cfg b now = (⟨true, none⟩, ⟨refillTokens cfg b now - 1, now⟩)) ∧
    (refillTokens cfg b now < 1 →
      isAllowedBucket cfg b now =
        (⟨false, some (jsCeil ((1 - refillTokens cfg b now) * (cfg.windowMs / (cfg.maxRequests : ℚ))))⟩,
          ⟨refillTokens cfg b now, now⟩)) ∧
    runFromFresh ⟨1, 60000⟩ [0, 1] = [⟨true, none⟩, ⟨false, some 59999⟩] ∧
    (60000 : ℤ) - 59999 ≤ 1 := by
  refine ⟨rfl, fun h => ?_, fun h => ?_,
    by norm_num [runFromFresh, runCalls, isAllowedBucket, refillTokens, jsMin, jsCeil], by decide⟩
  · simp only [isAllowedBucket, if_pos h]
  · simp only [isAllowedBucket, if_neg (not_le.mpr h)]

theorem isAllowed_spec_witness :
    1 ≤ refillTokens ⟨1, 60000⟩ ⟨1, 0⟩ 0 ∧
    isAllowedBucket ⟨1, 60000⟩ ⟨1, 0⟩ 0 =
      (⟨true, none⟩, ⟨refillTokens ⟨1, 60000⟩ ⟨1, 0⟩ 0 - 1, 0⟩) :=
  ⟨by norm_num [refillTokens, jsMin], (isAllowed_spec ⟨1, 60000⟩ 0 ⟨1, 0⟩).2.1 (by norm_num [refillTokens, jsMin])⟩

/-- Invariant maintained by the bucket of a key under monotone call times:
the token count stays between `0` and the configured capacity. -/
def BucketInv (cfg : RateLimitConfig) (b : RateLimitBucket) : Prop :=
  0 ≤ b.tokens ∧ b.tokens ≤ (cfg.maxRequests : ℚ)

theorem refillTokens_le_cap (cfg : RateLimitConfig) (b : RateLimitBucket) (now : ℚ) :
    refillTokens cfg b now ≤ (cfg.maxRequests : ℚ) := by
  rw [refillTokens, jsMin_eq_min]; exact min_le_left _ _

theorem refillTokens_le_linear (cfg : RateLimitConfig) (b : RateLimitBucket) (now : ℚ) :
    refillTokens cfg b now
      ≤ b.tokens + (now - b.lastRefill) / cfg.windowMs * (cfg.maxRequests : ℚ) := by
  rw [refillTokens, jsMin_eq_min]; exact min_le_right _ _

theorem refillTokens_nonneg (cfg : RateLimitConfig) (b : RateLimitBucket) (now : ℚ)
    (hW : 0 < cfg.windowMs) (hinv : BucketInv cfg b) (hle : b.lastRefill ≤ now) :
    0 ≤ refillTokens cfg b now := by
  rw [refillTokens, jsMin_eq_min]
  refine le_min (by positivity) (add_nonneg hinv.1 ?_)
  exact mul_nonneg (div_nonneg (sub_nonneg.mpr hle) hW.le) (by positivity)

theorem isAllowedBucket_lastRefill (cfg : RateLimitConfig) (b : RateLimitBucket) (now : ℚ) :
    ((isAllowedBucket cfg b now).2).lastRefill = now := by
  rw [isAllowedBucket]; split <;> rfl

theorem isAllowedBucket_inv (cfg : RateLimitConfig) (b : RateLimitBucket) (now : ℚ)
    (hW : 0 < cfg.windowMs) (hinv : BucketInv cfg b) (hle : b.lastRefill ≤ now) :
    BucketInv cfg (isAllowedBucket cfg b now).2 := by
  have hle' := refillTokens_le_cap cfg b now
  have hnn := refillTokens_nonneg cfg b now hW hinv hle
  rw [isAllowedBucket]; split
  · show BucketInv cfg ⟨refillTokens cfg b now - 1, now⟩
    exact ⟨by show (0 : ℚ) ≤ refillTokens cfg b now - 1; linarith,
      by show refillTokens cfg b now - 1 ≤ (cfg.maxRequests : ℚ); linarith⟩
  · show BucketInv cfg ⟨refillTokens cfg b now, now⟩
    exact ⟨hnn, hle'⟩

/-- Token accounting for a single call: the consumed token (`1` if allowed,
`0` otherwise) plus the remaining tokens equals the refilled level. -/
theorem isAllowedBucket_account (cfg : RateLimitConfig) (b : RateLimitBucket) (now : ℚ) :
    (if (isAllowedBucket cfg b now).1.allowed then (1 : ℚ) else 0)
      + ((isAllowedBucket cfg b now).2).tokens = refillTokens cfg b now := by
  rw [isAllowedBucket]; split <;> simp

theorem runCalls_lastRefill (cfg : RateLimitConfig) (b : RateLimitBucket) (ts : List ℚ) :
    ((runCalls cfg b ts).2).lastRefill = ts.getLastD b.lastRefill := by
  induction ts generalizing b with
  | nil => rfl
  | cons t ts ih =>
    rw [runCalls]; dsimp only
    rw [ih, isAllowedBucket_lastRefill, List.getLastD_cons]

theorem runCalls_inv (cfg : RateLimitConfig) (b : RateLimitBucket) (ts : List ℚ)
    (hW : 0 < cfg.windowMs) (hinv : BucketInv cfg b)
    (hchain : List.Chain (· ≤ ·) b.lastRefill ts) :
    BucketInv cfg (runCalls cfg b ts).2 := by
  induction ts generalizing b with
  | nil => exact hinv
  | cons t ts ih =>
    rw [List.chain_cons] at hchain
    rw [runCalls]; dsimp only
    refine ih _ (isAllowedBucket_inv cfg b t hW hinv hchain.1) ?_
    rw [isAllowedBucket_lastRefill]
    exact hchain.2

/-- Over a monotone run the number of allowed calls plus the final token level
is bounded by the initial level plus the tokens accrued between the initial
`lastRefill` and the final one. -/
theorem runCalls_count (cfg : RateLimitConfig) (b : RateLimitBucket) (ts : List ℚ)
    (hW : 0 < cfg.windowMs) (hinv : BucketInv cfg b)
    (hchain : List.Chain (· ≤ ·) b.lastRefill ts) :
    (countAllowed (runCalls cfg b ts).1 : ℚ) + ((runCalls cfg b ts).2).tokens
      ≤ b.tokens
        + (ts.getLastD b.lastRefill - b.lastRefill) / cfg.windowMs * (cfg.maxRequests : ℚ) := by
  induction ts generalizing b with
  | nil =>
    simp [runCalls, countAllowed]
  | cons t ts ih =>
    rw [List.chain_cons] at hchain
    have hstep := isAllowedBucket_account cfg b t
    have hrefill := refillTokens_le_linear cfg b t
    have hinv' := isAllowedBucket_inv cfg b t hW hinv hchain.1
    have hchain' : List.Chain (· ≤ ·) ((isAllowedBucket cfg b t).2).lastRefill ts := by
      rw [isAllowedBucket_lastRefill]; exact hchain.2
    have htail := ih _ hinv' hchain'
    rw [isAllowedBucket_lastRefill] at htail
    rw [runCalls]; dsimp only
    rw [List.getLastD_cons, countAllowed, List.countP_cons]
    rw [countAllowed] at htail
    have hW' : cfg.windowMs ≠ 0 := ne_of_gt hW
    have expand : (t - b.lastRefill) / cfg.windowMs * (cfg.maxRequests : ℚ)
          + (ts.getLastD t - t) / cfg.windowMs * (cfg.maxRequests : ℚ)
        = (ts.getLastD t - b.lastRefill) / cfg.windowMs * (cfg.maxRequests : ℚ) := by
      field_simp; ring
    by_cases hA : (isAllowedBucket cfg b t).1.allowed
    · rw [if_pos hA] at hstep
      rw [if_pos hA]
      push_cast
      linarith [htail, hrefill, hstep]
    · rw [if_neg hA] at hstep
      rw [if_neg hA]
      push_cast
      linarith [htail, hrefill, hstep]

/-- At most `2·capacity − 1` calls are allowed among any monotone block of
calls whose times all lie in a half-open interval of length `windowMs`. -/
theorem runCalls_window_bound (cfg : RateLimitConfig) (b : RateLimitBucket) (ts : List ℚ)
    (hW : 0 < cfg.windowMs) (hcap : 1 ≤ cfg.maxRequests) (hinv : BucketInv cfg b)
    (hchain : List.Chain (· ≤ ·) b.lastRefill ts) (a : ℚ)
    (hwin : ∀ t ∈ ts, a ≤ t ∧ t < a + cfg.windowMs) :
    countAllowed (runCalls cfg b ts).1 ≤ 2 * cfg.maxRequests - 1 := by
  cases ts with
  | nil =>
    simp only [runCalls, countAllowed, List.countP_nil]
    omega
  | cons t ts =>
    rw [List.chain_cons] at hchain
    have hinv' := isAllowedBucket_inv cfg b t hW hinv hchain.1
    have hchain' : List.Chain (· ≤ ·) ((isAllowedBucket cfg b t).2).lastRefill ts := by
      rw [isAllowedBucket_lastRefill]; exact hchain.2
    have htail := runCalls_count cfg _ ts hW hinv' hchain'
    rw [isAllowedBucket_lastRefill] at htail
    have hfin := (runCalls_inv cfg _ ts hW hinv' hchain').1
    have hcap0 : (0 : ℚ) < (cfg.maxRequests : ℚ) := by
      exact_mod_cast Nat.lt_of_lt_of_le Nat.zero_lt_one hcap
    -- the last call of the block happens strictly less than one window after `t`
    have hlastmem : ts.getLastD t ∈ t :: ts := List.getLastD_mem_cons ts t
    have hlt : ts.getLastD t - t < cfg.windowMs := by
      have h1 := (hwin _ hlastmem).2
      have h2 := (hwin t (List.mem_cons_self t ts)).1
      linarith
  -- the refill accrued inside the block is strictly below one full capacity
    have haccr : (ts.getLastD t - t) / cfg.windowMs * (cfg.maxRequests : ℚ)
        < (cfg.maxRequests : ℚ) := by
      have hdiv : (ts.getLastD t - t) / cfg.windowMs < 1 := (div_lt_one hW).mpr hlt
      calc (ts.getLastD t - t) / cfg.windowMs * (cfg.maxRequests : ℚ)
          < 1 * (cfg.maxRequests : ℚ) := by
            exact mul_lt_mul_of_pos_right hdiv hcap0
        _ = (cfg.maxRequests : ℚ) := one_mul _
    have hstep := isAllowedBucket_account cfg b t
    have hrefcap := refillTokens_le_cap cfg b t
    have hq : (countAllowed (runCalls cfg b (t :: ts)).1 : ℚ)
        < 2 * (cfg.maxRequests : ℚ) := by
      rw [runCalls]; dsimp only
      rw [countAllowed, List.countP_cons]
      rw [countAllowed] at htail
      by_cases hA : (isAllowedBucket cfg b t).1.allowed
      · rw [if_pos hA] at hstep
        rw [if_pos hA]
        push_cast
        linarith
      · rw [if_neg hA] at hstep
        rw [if_neg hA]
        push_cast
        linarith
    have hn : countAllowed (runCalls cfg b (t :: ts)).1 < 2 * cfg.maxRequests := by
      exact_mod_cast hq
    omega

theorem runCalls_append (cfg : RateLimitConfig) (b : RateLimitBucket) (xs ys : List ℚ) :
    runCalls cfg b (xs ++ ys)
      = ((runCalls cfg b xs).1 ++ (runCalls cfg (runCalls cfg b xs).2 ys).1,
         (runCalls cfg (runCalls cfg b xs).2 ys).2) := by
  induction xs generalizing b with
  | nil => simp [runCalls]
  | cons x xs ih => rw [List.cons_append, runCalls, runCalls, ih]; rfl

theorem chainLe_append_left (x : ℚ) (xs ys : List ℚ)
    (h : List.Chain (· ≤ ·) x (xs ++ ys)) : List.Chain (· ≤ ·) x xs := by
  induction xs generalizing x with
  | nil => exact List.Chain.nil
  | cons a l ih =>
    rw [List.cons_append, List.chain_cons] at h
    exact List.chain_cons.mpr ⟨h.1, ih a h.2⟩

theorem chainLe_append_right (x : ℚ) (xs ys : List ℚ)
    (h : List.Chain (· ≤ ·) x (xs ++ ys)) :
    List.Chain (· ≤ ·) (xs.getLastD x) ys := by
  induction xs generalizing x with
  | nil => exact h
  | cons a l ih =>
    rw [List.cons_append, List.chain_cons] at h
    rw [List.getLastD_cons]
    exact ih a h.2

/-- C2 is false as stated: with `maxRequests = 2` and `windowMs = 2`, the three
calls at times `0, 0, 1` — all inside the half-open interval `[0, 2)` of length
one window — are all allowed, exceeding the capacity `2`; moreover with a clock
that jumps backwards the token count becomes negative (`-1/2` here). -/
theorem rolling_window_counterexample :
    countAllowed (runFromFresh ⟨2, 2⟩ [0, 0, 1]) = 3 ∧
    2 < 3 ∧
    ((0 : ℚ) ≤ 0 ∧ (0 : ℚ) < 0 + 2 ∧ (0 : ℚ) ≤ 1 ∧ (1 : ℚ) < 0 + 2) ∧
    (runCalls ⟨1, 2⟩ ⟨1, 0⟩ [0, 1, -1]).2.tokens < 0 := by
  refine ⟨?_, by decide, by norm_num, ?_⟩
  · norm_num [runFromFresh, runCalls, isAllowedBucket, refillTokens, jsMin, jsCeil,
      countAllowed, List.countP_cons]
  · norm_num [runCalls, isAllowedBucket, refillTokens, jsMin, jsCeil]

/-- C2 (amended): under non-decreasing wall-clock call times, the bucket's
token count never becomes negative (it stays within `[0, capacity]`), and the
number of allowed calls within any rolling half-open interval of length
`windowMs` never exceeds `2·capacity − 1`; the bound `capacity` claimed by the
spec does not hold (see the counterexample), and with a decreasing clock the
token count can go negative. -/
theorem isAllowed_window_bound (cfg : RateLimitConfig)
    (hW : 0 < cfg.windowMs) (hcap : 1 ≤ cfg.maxRequests)
    (start a : ℚ) (l1 l2 l3 : List ℚ)
    (hchain : List.Chain (· ≤ ·) start (l1 ++ l2 ++ l3))
    (hwin : ∀ t ∈ l2, a ≤ t ∧ t < a + cfg.windowMs) :
    BucketInv cfg (runCalls cfg ⟨(cfg.maxRequests : ℚ), start⟩ (l1 ++ l2 ++ l3)).2 ∧
    (runCalls cfg ⟨(cfg.maxRequests : ℚ), start⟩ (l1 ++ l2 ++ l3)).1
      = (runCalls cfg ⟨(cfg.maxRequests : ℚ), start⟩ l1).1
        ++ (runCalls cfg (runCalls cfg ⟨(cfg.maxRequests : ℚ), start⟩ l1).2 l2).1
        ++ (runCalls cfg
              (runCalls cfg (runCalls cfg ⟨(cfg.maxRequests : ℚ), start⟩ l1).2 l2).2 l3).1 ∧
    countAllowed (runCalls cfg (runCalls cfg ⟨(cfg.maxRequests : ℚ), start⟩ l1).2 l2).1
      ≤ 2 * cfg.maxRequests - 1 := by
  have hinv0 : BucketInv cfg (⟨(cfg.maxRequests : ℚ), start⟩ : RateLimitBucket) :=
    ⟨by positivity, le_refl _⟩
  have hchain0 :
      List.Chain (· ≤ ·) (⟨(cfg.maxRequests : ℚ), start⟩ : RateLimitBucket).lastRefill
        (l1 ++ l2 ++ l3) := hchain
  refine ⟨runCalls_inv cfg _ _ hW hinv0 hchain0, ?_, ?_⟩
  · rw [List.append_assoc, runCalls_append, runCalls_append, List.append_assoc]
  · have hb1 := runCalls_inv cfg _ l1 hW hinv0 (chainLe_append_left _ _ (l2 ++ l3) ?hc1)
    case hc1 => rw [← List.append_assoc]; exact hchain0
    have hchain1 :
        List.Chain (· ≤ ·) ((runCalls cfg ⟨(cfg.maxRequests : ℚ), start⟩ l1).2).lastRefill
          (l2 ++ l3) := by
      rw [runCalls_lastRefill]
      exact chainLe_append_right start l1 (l2 ++ l3) (by rw [← List.append_assoc]; exact hchain0)
    exact runCalls_window_bound cfg _ l2 hW hcap hb1
      (chainLe_append_left _ _ _ hchain1) a hwin

theorem isAllowed_window_bound_witness :
    (0 : ℚ) < 60000 ∧ 1 ≤ 1 ∧
    List.Chain (· ≤ ·) (0 : ℚ) ([] ++ [0, 1] ++ []) ∧
    countAllowed (runCalls ⟨1, 60000⟩
        (runCalls ⟨1, 60000⟩ ⟨((1 : ℕ) : ℚ), 0⟩ []).2 [0, 1]).1 ≤ 2 * 1 - 1 := by
  have h := isAllowed_window_bound ⟨1, 60000⟩ (by norm_num) (le_refl 1) 0 0 [] [0, 1] []
    (by simp [List.chain_cons]) (by norm_num)
  exact ⟨by norm_num, le_refl 1, by simp [List.chain_cons], h.2.2⟩

/-! ## TTL cache (`utils/cache.ts`, `src/unnamed/part_005`)

`Cache<T>` wraps a `Map<string, CacheEntry<T>>`; the map is modelled as an
association list with unique keys (newest entry first), `Date.now()` as a
rational parameter. -/

structure CacheEntry (T : Type) where
  data : T
  timestamp : ℚ
deriving Repr, DecidableEq

/-- The backing `Map` of a `Cache<T>` instance. -/
def CacheMap (T : Type) := List (String × CacheEntry T)

/-- `Map.get`: the newest entry stored under `k`, if any. -/
def cacheLookup {T : Type} (c : CacheMap T) (k : String) : Option (CacheEntry T) :=
  (c.find? (fun p => p.1 == k)).map (·.2)

/-- `Map.delete(key)`. -/
def cacheDelete {T : Type} (c : CacheMap T) (k : String) : CacheMap T :=
  c.filter (fun p => !(p.1 == k))

/-- `Cache.set(key, data)`: stores `{ data, timestamp: Date.now() }` under
`key`, replacing any previous entry (a `Map` has unique keys). -/
def cacheSet {T : Type} (c : CacheMap T) (k : String) (v : T) (now : ℚ) : CacheMap T :=
  (k, ⟨v, now⟩) :: cacheDelete c k

/-- `Cache.get(key)`: a miss if absent; if present but
`Date.now() - entry.timestamp > ttlMs`, the entry is deleted and `null`
returned; otherwise the stored data. Returns the result and the
post-call map. -/
def cacheGet {T : Type} (ttl : ℚ) (c : CacheMap T) (k : String) (now : ℚ) :
    Option T × CacheMap T :=
  match cacheLookup c k with
  | none => (none, c)
  | some e => if ttl < now - e.timestamp then (none, cacheDelete c k) else (some e.data, c)

theorem cacheLookup_set {T : Type} (c : CacheMap T) (k : String) (v : T) (now : ℚ) :
    cacheLookup (cacheSet c k v now) k = some ⟨v, now⟩ := by
  simp [cacheLookup, cacheSet, List.find?]

theorem cacheLookup_delete {T : Type} (c : CacheMap T) (k : String) :
    cacheLookup (cacheDelete c k) k = none := by
  rw [cacheLookup, Option.map_eq_none']
  rw [List.find?_eq_none]
  intro p hp
  have := List.of_mem_filter hp
  simpa using this

/-- C3: after `set(k, v)` at time `t0` with no intervening write to `k`,
`get(k)` at time `t` returns `v` (and leaves the map unchanged) whenever
`t - t0 ≤ ttl`, and returns a miss whenever `t - t0 > ttl`, in which case the
entry is deleted from the map (lazy eviction on read). -/
theorem cache_get_after_set {T : Type} (ttl : ℚ) (c : CacheMap T) (k : String)
    (v : T) (t0 t : ℚ) :
    (t - t0 ≤ ttl → cacheGet ttl (cacheSet c k v t0) k t = (some v, cacheSet c k v t0)) ∧
    (ttl < t - t0 →
      (cacheGet ttl (cacheSet c k v t0) k t).1 = none ∧
      cacheLookup (cacheGet ttl (cacheSet c k v t0) k t).2 k = none) := by
  constructor
  · intro h
    simp only [cacheGet, cacheLookup_set]
    rw [if_neg (not_lt.mpr h)]
  · intro h
    simp only [cacheGet, cacheLookup_set]
    rw [if_pos h]
    exact ⟨rfl, cacheLookup_delete _ _⟩

theorem cache_get_after_set_witness :
    ((3 : ℚ) - 0 ≤ 5 ∧
      cacheGet 5 (cacheSet ([] : CacheMap ℕ) "repo" 7 0) "repo" 3
        = (some 7, cacheSet ([] : CacheMap ℕ) "repo" 7 0)) ∧
    ((5 : ℚ) < 6 - 0 ∧
      (cacheGet 5 (cacheSet ([] : CacheMap ℕ) "repo" 7 0) "repo" 6).1 = none ∧
      cacheLookup (cacheGet 5 (cacheSet ([] : CacheMap ℕ) "repo" 7 0) "repo" 6).2 "repo"
        = none) :=
  ⟨⟨by norm_num, (cache_get_after_set 5 [] "repo" 7 0 3).1 (by norm_num)⟩,
    ⟨by norm_num, (cache_get_after_set 5 [] "repo" 7 0 6).2 (by norm_num)⟩⟩

/-! ## GitHub reference resolution (`src/services/githubService.ts` lines
74-102, `src/utils/errorHandler.ts` lines 27-37)

JS strings are modelled as lists of characters; the string primitives used by
`parseGithubUrl` and `validateGithubUrl` (trim, the SSH regex, `new URL`,
`split`, `replace(/\.git$/i, '')`) are modelled below. -/

/-- A JS string value. -/
abbrev JStr := List Char

/-- Whitespace as trimmed by `String.prototype.trim` and matched by the regex
class `\s` (restricted to the ASCII whitespace characters). -/
def isWS (c : Char) : Bool := c == ' ' || c == '\t' || c == '\n' || c == '\r'

def trimJS (s : JStr) : JStr := ((s.dropWhile isWS).reverse.dropWhile isWS).reverse

def lowerJS (s : JStr) : JStr := s.map Char.toLower

/-- If `p` is a leading segment of `s`, the remainder of `s` after it. -/
def dropPre : JStr → JStr → Option JStr
  | [], s => some s
  | _, [] => none
  | a :: p, b :: s => if a = b then dropPre p s else none

def endsWithJS (suf s : JStr) : Bool := (dropPre suf.reverse s.reverse).isSome

/-- `String.prototype.split(c)` on a single-character separator. -/
def splitJS (c : Char) (s : JStr) : List JStr :=
  s.foldr (fun ch acc =>
    if ch = c then [] :: acc
    else match acc with
      | g :: rest => (ch :: g) :: rest
      | [] => [[ch]]) [[]]

/-- The first occurrence of `sep` in `s`, as `some (before, after)`. -/
def breakOnJS (sep : JStr) : JStr → Option (JStr × JStr)
  | [] => if sep.isEmpty then some ([], []) else none
  | c :: rest =>
    match dropPre sep (c :: rest) with
    | some tail => some ([], tail)
    | none =>
      match breakOnJS sep rest with
      | some (pre, post) => some (c :: pre, post)
      | none => none

structure UrlParts where
  hostname : JStr
  pathname : JStr
deriving Repr, DecidableEq

def schemeOk (s : JStr) : Bool :=
  match s with
  | [] => false
  | c :: rest =>
    c.isAlpha && rest.all (fun ch => ch.isAlpha || ch.isDigit || ch == '+' || ch == '-' || ch == '.')

/-- Model of the WHATWG `new URL(input)` constructor on absolute
`scheme://...` inputs: yields the `hostname` (lower-cased, with userinfo and
port stripped) and the `pathname` (query and fragment stripped, `/` when
empty); inputs without a valid `scheme://` head or with an empty host throw,
modelled as `none`. -/
def parseUrlJS (s : JStr) : Option UrlParts :=
  match breakOnJS "://".data s with
  | none => none
  | some (scheme, rest) =>
    if schemeOk scheme then
      let auth := rest.takeWhile (fun c => !(c == '/') && !(c == '?') && !(c == '#'))
      let afterAuth := rest.drop auth.length
      let path := afterAuth.takeWhile (fun c => !(c == '?') && !(c == '#'))
      let host0 := match (splitJS '@' auth).getLast? with
        | some h => h
        | none => auth
      let hostname := lowerJS (host0.takeWhile (fun c => !(c == ':')))
      let pathname := if path.isEmpty then ['/'] else path
      if hostname.isEmpty then none else some ⟨hostname, pathname⟩
    else none

/-- The matched part must keep at least one character, so a trailing
occurrence of `suf` is only removed when something remains (this models the
backtracking of the lazy capture in the SSH regex). Case-insensitive: `suf`
is given lower-case. -/
def stripTrailJS (s : JStr) (suf : JStr) : JStr :=
  if endsWithJS suf (lowerJS s) && decide (suf.length < s.length) then
    s.take (s.length - suf.length)
  else s

def gitSshPre : JStr := "git@github.com:".data

/-- Model of `trimmed.match(/^git@github\.com:([^\/\s]+)\/([^\s]+?)(?:\.git)?\/?$/i)`:
owner is everything up to the first `/` after the colon (non-empty, no
whitespace); the repo capture is the rest with an optional trailing `/` and
then an optional trailing `.git` removed (each only when a non-empty capture
remains). -/
def parseSshJS (s : JStr) : Option (JStr × JStr) :=
  match dropPre gitSshPre (lowerJS s) with
  | none => none
  | some _ =>
    let rest := s.drop gitSshPre.length
    let owner := rest.takeWhile (fun c => !(c == '/'))
    if owner.isEmpty || owner.any isWS then none
    else
      match rest.drop owner.length with
      | [] => none
      | _ :: afterSlash =>
        if afterSlash.isEmpty || afterSlash.any isWS then none
        else
          some (owner, stripTrailJS (stripTrailJS afterSlash ['/']) ".git".data)

structure RepoRef where
  owner : String
  repo : String
deriving Repr, DecidableEq

/-- `parts[1].replace(/\.git$/i, '')` — unlike the SSH case this may leave an
empty string. -/
def dropGitSuffixJS (r : JStr) : JStr :=
  if endsWithJS ".git".data (lowerJS r) then r.take (r.length - 4) else r

/-- `parseGithubUrl` (`src/services/githubService.ts`): SSH clone form first,
then HTTP(S) URLs on `(www.)github.com` whose path has at least two segments,
taking the first two. -/
def parseGithubUrl (url : String) : Option RepoRef :=
  let trimmed := trimJS url.data
  match parseSshJS trimmed with
  | some (o, r) => some ⟨⟨o⟩, ⟨r⟩⟩
  | none =>
    match parseUrlJS trimmed with
    | none => none
    | some u =>
      if u.hostname = "github.com".data ∨ u.hostname = "www.github.com".data then
        match (splitJS '/' u.pathname).filter (fun p => !p.isEmpty) with
        | owner :: repo :: _ =>
          let repo2 := dropGitSuffixJS repo
          if !owner.isEmpty && !repo2.isEmpty then some ⟨⟨owner⟩, ⟨repo2⟩⟩ else none
        | _ => none
      else none

/-- `validateGithubUrl` (`src/utils/errorHandler.ts`): hostname must be
exactly `github.com` and the path must have exactly two non-empty segments. -/
def validateGithubUrl (url : String) : Bool :=
  match parseUrlJS url.data with
  | none => false
  | some u =>
    u.hostname == "github.com".data &&
      ((splitJS '/' u.pathname).filter (fun p => !p.isEmpty)).length == 2

/-- C4 is false as stated: `parseGithubUrl` does not reject a URL whose path
has extra segments beyond owner/name — it resolves
`https://github.com/acme/widgets/tree/main` to `acme/widgets` instead of
failing. -/
theorem parseGithubUrl_counterexample :
    parseGithubUrl "https://github.com/acme/widgets/tree/main" = some ⟨"acme", "widgets"⟩ ∧
    (parseGithubUrl "https://github.com/acme/widgets/tree/main").isSome = true := by
  constructor
  · decide
  · decide

/-- C4 (amended): `parseGithubUrl` resolves both the URL form and the
SSH-clone form to `{owner: "acme", repo: "widgets"}` and returns `null` for a
URL on a different host or with a single-segment path, but it tolerates extra
path segments beyond owner/name (taking the first two); the strict
exactly-owner-plus-name requirement is enforced separately by
`validateGithubUrl`, which rejects the extra-segment URL. -/
theorem parseGithubUrl_spec :
    parseGithubUrl "https://github.com/acme/widgets" = some ⟨"acme", "widgets"⟩ ∧
    parseGithubUrl "git@github.com:acme/widgets.git" = some ⟨"acme", "widgets"⟩ ∧
    parseGithubUrl "https://not-the-provider.com/a/b" = none ∧
    parseGithubUrl "https://github.com/onlyowner" = none ∧
    parseGithubUrl "https://provider.com/onlyowner" = none ∧
    parseGithubUrl "https://github.com/acme/widgets/tree/main" = some ⟨"acme", "widgets"⟩ ∧
    validateGithubUrl "https://github.com/acme/widgets" = true ∧
    validateGithubUrl "https://github.com/acme/widgets/tree/main" = false := by
  refine ⟨by decide, by decide, by decide, by decide, by decide, by decide, by decide, by decide⟩

/-! ## Tree reconstruction (`fetchRepoStructure`,
`src/services/githubService.ts` lines 140-178)

The loop over the flat `git/trees?recursive=1` listing keeps a map from path
to node and attaches each entry to `map[parentPath]`.  The JS code stores
`map[item.path] = node` before the parent lookup, but the parent key is
strictly shorter than `item.path`, so looking up the parent in the pre-insert
map is equivalent; children are pushed only onto `tree` nodes (a blob has no
`children` array and the optional-chained push is a no-op).  The state below
records the map (`seen`, newest first), the top-level roots, and every
performed parent-child attachment. -/

inductive GitNodeType where
  | blob
  | tree
deriving DecidableEq, Repr

structure GitTreeItem where
  path : String
  type : GitNodeType
  size : Option ℕ
deriving DecidableEq, Repr

structure TreeBuildState where
  seen : List (String × GitNodeType)
  roots : List String
  childEdges : List (String × String)
deriving DecidableEq, Repr

def pathParts (p : String) : List JStr := splitJS '/' p.data

/-- `parts.slice(0, -1).join('/')`. -/
def parentPathOf (p : String) : String := ⟨List.intercalate ['/'] (pathParts p).dropLast⟩

def treeBuildStep (st : TreeBuildState) (item : GitTreeItem) : TreeBuildState :=
  if (pathParts item.path).length = 1 then
    ⟨(item.path, item.type) :: st.seen, st.roots ++ [item.path], st.childEdges⟩
  else
    match (st.seen.find? (fun e => e.1 == parentPathOf item.path)).map (·.2) with
    | some GitNodeType.tree =>
      ⟨(item.path, item.type) :: st.seen, st.roots,
        st.childEdges ++ [(parentPathOf item.path, item.path)]⟩
    | _ => ⟨(item.path, item.type) :: st.seen, st.roots, st.childEdges⟩

def buildTree (items : List GitTreeItem) : TreeBuildState :=
  items.foldl treeBuildStep ⟨[], [], []⟩

theorem treeBuildStep_edges_mono (st : TreeBuildState) (it : GitTreeItem) :
    ∃ ext, (treeBuildStep st it).childEdges = st.childEdges ++ ext := by
  rw [treeBuildStep]
  split
  · exact ⟨[], (List.append_nil _).symm⟩
  · split
    · exact ⟨[(parentPathOf it.path, it.path)], rfl⟩
    · exact ⟨[], (List.append_nil _).symm⟩

theorem treeBuildStep_roots_mono (st : TreeBuildState) (it : GitTreeItem) :
    ∃ ext, (treeBuildStep st it).roots = st.roots ++ ext := by
  rw [treeBuildStep]
  split
  · exact ⟨[it.path], rfl⟩
  · split
    · exact ⟨[], (List.append_nil _).symm⟩
    · exact ⟨[], (List.append_nil _).symm⟩

theorem foldl_edges_mono (items : List GitTreeItem) (st : TreeBuildState) :
    ∃ ext, (items.foldl treeBuildStep st).childEdges = st.childEdges ++ ext := by
  induction items generalizing st with
  | nil => exact ⟨[], (List.append_nil _).symm⟩
  | cons it rest ih =>
    obtain ⟨e1, h1⟩ := treeBuildStep_edges_mono st it
    obtain ⟨e2, h2⟩ := ih (treeBuildStep st it)
    exact ⟨e1 ++ e2, by rw [List.foldl_cons, h2, h1, List.append_assoc]⟩

theorem foldl_roots_mono (items : List GitTreeItem) (st : TreeBuildState) :
    ∃ ext, (items.foldl treeBuildStep st).roots = st.roots ++ ext := by
  induction items generalizing st with
  | nil => exact ⟨[], (List.append_nil _).symm⟩
  | cons it rest ih =>
    obtain ⟨e1, h1⟩ := treeBuildStep_roots_mono st it
    obtain ⟨e2, h2⟩ := ih (treeBuildStep st it)
    exact ⟨e1 ++ e2, by rw [List.foldl_cons, h2, h1, List.append_assoc]⟩

theorem treeBuildStep_seen (st : TreeBuildState) (it : GitTreeItem) :
    (treeBuildStep st it).seen = (it.path, it.type) :: st.seen := by
  rw [treeBuildStep]
  split
  · rfl
  · split <;> rfl

/-- After processing a list of items, the map holds exactly the processed
`(path, type)` pairs (newest first) on top of the initial map. -/
theorem foldl_seen (items : List GitTreeItem) (st : TreeBuildState) :
    (items.foldl treeBuildStep st).seen
      = (items.map (fun it => (it.path, it.type))).reverse ++ st.seen := by
  induction items generalizing st with
  | nil => rfl
  | cons it rest ih =>
    rw [List.foldl_cons, ih, treeBuildStep_seen, List.map_cons, List.reverse_cons,
      List.append_assoc, List.singleton_append]

theorem find_key_nodup (pairs : List (String × GitNodeType)) (k : String) (v : GitNodeType)
    (hmem : (k, v) ∈ pairs) (hnodup : (pairs.map (·.1)).Nodup) :
    pairs.find? (fun e => e.1 == k) = some (k, v) := by
  induction pairs with
  | nil => cases hmem
  | cons p rest ih =>
    rw [List.map_cons, List.nodup_cons] at hnodup
    rcases List.mem_cons.mp hmem with h | h
    · subst h
      simp [List.find?]
    · have hk : k ∈ rest.map (·.1) := List.mem_map.mpr ⟨(k, v), h, rfl⟩
      have hne : ¬(p.1 == k) = true := by
        simp only [beq_iff_eq]
        intro heq
        exact hnodup.1 (heq ▸ hk)
      rw [List.find?]
      rw [Bool.not_eq_true] at hne
      rw [hne]
      exact ih h hnodup.2

/-- C5 is false as stated: tree reconstruction is order-dependent.  On the
spec's example list in parent-first order it attaches `a/b` under `a` and
`a/b/c.txt` under `a/b`, but on the permutation that lists children before
their parents it attaches nothing at all — `c.txt` is dropped instead of
being reconstructed as a descendant of `b`. -/
theorem buildTree_order_counterexample :
    ([⟨"a/b/c.txt", .blob, some 10⟩, ⟨"a/b", .tree, none⟩, ⟨"a", .tree, none⟩]
        : List GitTreeItem).Perm
      [⟨"a", .tree, none⟩, ⟨"a/b", .tree, none⟩, ⟨"a/b/c.txt", .blob, some 10⟩] ∧
    (buildTree [⟨"a", .tree, none⟩, ⟨"a/b", .tree, none⟩,
        ⟨"a/b/c.txt", .blob, some 10⟩]).childEdges
      = [("a", "a/b"), ("a/b", "a/b/c.txt")] ∧
    (buildTree [⟨"a/b/c.txt", .blob, some 10⟩, ⟨"a/b", .tree, none⟩,
        ⟨"a", .tree, none⟩]).childEdges = [] := by
  exact ⟨by decide, by decide, by decide⟩

/-- C5 (amended): reconstruction is order-dependent — an entry is attached to
its parent exactly when the parent path was already processed as a `tree`
entry.  For inputs with distinct paths in which every nested entry's parent
precedes it as a tree (as in the provider's recursive listing), each top-level
entry becomes a root and each nested entry is attached under its parent; a
permutation that lists a child before its parent silently drops the child
(see the counterexample). -/
theorem buildTree_parent_first (pre post : List GitTreeItem) (it : GitTreeItem)
    (hnodup : ((pre ++ it :: post).map (·.path)).Nodup) :
    ((pathParts it.path).length = 1 →
      it.path ∈ (buildTree (pre ++ it :: post)).roots) ∧
    ((pathParts it.path).length ≠ 1 →
      (∃ pj ∈ pre, pj.path = parentPathOf it.path ∧ pj.type = GitNodeType.tree) →
      (parentPathOf it.path, it.path) ∈ (buildTree (pre ++ it :: post)).childEdges) := by
  have hfold : buildTree (pre ++ it :: post)
      = post.foldl treeBuildStep (treeBuildStep (pre.foldl treeBuildStep ⟨[], [], []⟩) it) := by
    rw [buildTree, List.foldl_append, List.foldl_cons]
  have hseen : (pre.foldl treeBuildStep ⟨[], [], []⟩).seen
      = (pre.map (fun p => (p.path, p.type))).reverse := by
    rw [foldl_seen]; exact List.append_nil _
  constructor
  · intro hseg
    rw [hfold]
    obtain ⟨ext, hext⟩ := foldl_roots_mono post (treeBuildStep (pre.foldl treeBuildStep ⟨[], [], []⟩) it)
    rw [hext, treeBuildStep, if_pos hseg]
    exact List.mem_append_left _ (List.mem_append_right _ (List.mem_singleton.mpr rfl))
  · intro hseg hparent
    obtain ⟨pj, hpj_mem, hpj_path, hpj_tree⟩ := hparent
    have hmem : (parentPathOf it.path, GitNodeType.tree)
        ∈ (pre.map (fun p => (p.path, p.type))).reverse := by
      rw [List.mem_reverse]
      exact List.mem_map.mpr ⟨pj, hpj_mem, by rw [hpj_path, hpj_tree]⟩
    have hnodup_pre : (((pre.map (fun p => (p.path, p.type))).reverse).map (·.1)).Nodup := by
      have h1 : ((pre ++ it :: post).map (·.path)) = pre.map (·.path) ++ (it :: post).map (·.path) :=
        List.map_append _ _ _
      rw [h1] at hnodup
      have h2 : (pre.map (·.path)).Nodup := List.Nodup.of_append_left hnodup
      have h3 : ((pre.map (fun p => (p.path, p.type))).reverse).map (·.1)
          = ((pre.map (fun p => (p.path, p.type))).map (·.1)).reverse := by
        simp [List.map_reverse]
      have h4 : ((pre.map (fun p => (p.path, p.type))).map (·.1)) = pre.map (·.path) := by
        rw [List.map_map]
        rfl
      rw [h3, h4]
      exact List.nodup_reverse.mpr h2
    have hfind : ((pre.foldl treeBuildStep ⟨[], [], []⟩).seen).find?
        (fun e => e.1 == parentPathOf it.path) = some (parentPathOf it.path, GitNodeType.tree) := by
      rw [hseen]
      exact find_key_nodup _ _ _ hmem hnodup_pre
    rw [hfold]
    obtain ⟨ext, hext⟩ := foldl_edges_mono post (treeBuildStep (pre.foldl treeBuildStep ⟨[], [], []⟩) it)
    rw [hext, treeBuildStep, if_neg hseg, hfind]
    refine List.mem_append_left _ (List.mem_append_right _ (List.mem_singleton.mpr rfl))

theorem buildTree_parent_first_witness :
    ((([⟨"a", GitNodeType.tree, none⟩, ⟨"a/b", GitNodeType.tree, none⟩] : List GitTreeItem)
        ++ (⟨"a/b/c.txt", GitNodeType.blob, some 10⟩ : GitTreeItem) :: []).map (·.path)).Nodup ∧
    (pathParts "a/b/c.txt").length ≠ 1 ∧
    (parentPathOf "a/b/c.txt", "a/b/c.txt")
      ∈ (buildTree (([⟨"a", GitNodeType.tree, none⟩, ⟨"a/b", GitNodeType.tree, none⟩] : List GitTreeItem)
          ++ (⟨"a/b/c.txt", GitNodeType.blob, some 10⟩ : GitTreeItem) :: [])).childEdges := by
  refine ⟨by decide, by decide, ?_⟩
  exact (buildTree_parent_first [⟨"a", GitNodeType.tree, none⟩, ⟨"a/b", GitNodeType.tree, none⟩]
      [] ⟨"a/b/c.txt", GitNodeType.blob, some 10⟩ (by decide)).2 (by decide)
    ⟨⟨"a/b", GitNodeType.tree, none⟩, by decide, by decide, rfl⟩

/-! ## Error classification (`src/utils/errorHandler.ts`) and the inference
gateway (`src/services/geminiService.ts`)

The asynchronous upstream call of an operation is modelled by
`Upstream α := Option (ℚ × Except Thrown α)`: `none` is a promise that never
settles, `some (t, r)` settles at wall-clock offset `t` ms with fulfilment or
rejection `r`.  An operation's observable behaviour is an `OpResult`:
a returned value, a thrown (classified) `AppError`, or hanging forever. -/

structure AppError where
  code : String
  statusCode : ℕ
  message : String
deriving DecidableEq, Repr

/-- A thrown JS value: an `AppError`, an `Error` carrying a message, or
anything else. -/
inductive Thrown where
  | app : AppError → Thrown
  | err : String → Thrown
  | other : Thrown
deriving DecidableEq, Repr

def containsJS (needle hay : JStr) : Bool := (breakOnJS needle hay).isSome

/-- `handleError` (`src/utils/errorHandler.ts`): pass `AppError` through,
heuristically tag transport-looking messages as `NETWORK_ERROR`, default the
rest to `API_ERROR`. -/
def handleError : Thrown → AppError
  | .app e => e
  | .err msg =>
    if containsJS "fetch".data msg.data || containsJS "network".data msg.data then
      ⟨"NETWORK_ERROR", 503, "Network error. Please check your connection."⟩
    else
      ⟨"API_ERROR", 500, if msg = "" then "An unexpected error occurred" else msg⟩
  | .other => ⟨"API_ERROR", 500, "An unexpected error occurred"⟩

def rateLimitMessage (d : RateLimitDecision) : String :=
  "Rate limit exceeded. Please try again in " ++
    (match d.retryAfter with
     | some n => toString n
     | none => "undefined") ++ "ms."

/-- `checkRateLimit` of the gateway, applied to the verdict of
`apiRateLimiter.isAllowed(identifier)` for the operation's own key. -/
def checkRateLimit (d : RateLimitDecision) : Except Thrown Unit :=
  if d.allowed then .ok ()
  else .error (.app ⟨"RATE_LIMIT_EXCEEDED", 429, rateLimitMessage d⟩)

def invalidKeyError : AppError :=
  ⟨"INVALID_API_KEY", 401,
    "Gemini API key is not configured. Please set VITE_GEMINI_API_KEY in .env.local file."⟩

/-- `getApiKey`: throws unless `VITE_GEMINI_API_KEY` is set, non-empty and not
the placeholder. -/
def getApiKey (envKey : Option String) : Except Thrown String :=
  match envKey with
  | none => .error (.app invalidKeyError)
  | some k =>
    if k = "" ∨ k = "your_gemini_api_key_here" then .error (.app invalidKeyError)
    else .ok k

def Upstream (α : Type) := Option (ℚ × Except Thrown α)

inductive OpResult (α : Type) where
  | ok : α → OpResult α
  | thrown : AppError → OpResult α
  | hangs : OpResult α
deriving DecidableEq, Repr

def jsFloorQ (q : ℚ) : ℤ := q.num / (q.den : ℤ)

/-- `Math.round` (round half up). -/
def jsRound (q : ℚ) : ℤ := jsFloorQ (q + 1 / 2)

def timeoutError (label : String) (ms : ℚ) : AppError :=
  ⟨"API_ERROR", 504,
    label ++ " timed out after " ++ toString (jsRound (ms / 1000)) ++ "s. Please try again."⟩

/-- `getTimeoutMs`: `VITE_GEMINI_TIMEOUT_MS` when set to a finite positive
number (unset / NaN modelled as `none`), otherwise the 90000 ms default. -/
def getTimeoutMs (env : Option ℚ) : ℚ :=
  match env with
  | some v => if 0 < v then v else 90000
  | none => 90000

/-- `withTimeout(promise, ms, label)` races the upstream promise against
`setTimeout(ms)`: it always settles — with the upstream result when the
upstream settles within `ms`, with the 504 timeout `AppError` otherwise. -/
def withTimeout (α : Type) (ms : ℚ) (label : String) (u : Upstream α) : Except Thrown α :=
  match u with
  | none => .error (.app (timeoutError label ms))
  | some (t, r) => if t ≤ ms then r else .error (.app (timeoutError label ms))

/-- A reply whose `response.text` fails `JSON.parse` (a thrown SyntaxError);
the upstream payload `Option α` is `none` in that case, `some` the parsed
value otherwise. -/
def parseFailure : Thrown := .err "Unexpected end of JSON input"

structure DeepAudit where
  reasoning : String
  vulnerabilities : List String
  architecturalDebt : String
deriving DecidableEq, Repr

/-- `performDeepAudit`: rate-limit check, API key, then a direct `await` of
the upstream call — no `withTimeout` anywhere; the `catch` rethrows the
classified error (`throw handleError(error)`). -/
def performDeepAudit (d : RateLimitDecision) (envKey : Option String)
    (u : Upstream (Option DeepAudit)) : OpResult DeepAudit :=
  match checkRateLimit d with
  | .error e => .thrown (handleError e)
  | .ok _ =>
    match getApiKey envKey with
    | .error e => .thrown (handleError e)
    | .ok _ =>
      match u with
      | none => .hangs
      | some (_, .error e) => .thrown (handleError e)
      | some (_, .ok none) => .thrown (handleError parseFailure)
      | some (_, .ok (some v)) => .ok v

/-- `analyzeRepository`: the one gateway operation whose upstream call is
wrapped in `withTimeout(…, getTimeoutMs(), 'Repository analysis')`; the
type parameter stands for the parsed `AnalysisResult`. -/
def analyzeRepository (α : Type) (d : RateLimitDecision) (envKey : Option String)
    (envTimeout : Option ℚ) (u : Upstream (Option α)) : OpResult α :=
  match checkRateLimit d with
  | .error e => .thrown (handleError e)
  | .ok _ =>
    match getApiKey envKey with
    | .error e => .thrown (handleError e)
    | .ok _ =>
      match withTimeout (Option α) (getTimeoutMs envTimeout) "Repository analysis" u with
      | .error e => .thrown (handleError e)
      | .ok none => .thrown (handleError parseFailure)
      | .ok (some v) => .ok v

structure OnboardingGuideFields where
  quickStart : String
  criticalFiles : List String
  recommendedPath : List String
  commonTasks : List (String × List String)
  setupInstructions : String
deriving DecidableEq, Repr

/-- `generateOnboardingGuide`: direct `await`, rethrows classified errors. -/
def generateOnboardingGuide (d : RateLimitDecision) (envKey : Option String)
    (u : Upstream (Option OnboardingGuideFields)) : OpResult OnboardingGuideFields :=
  match checkRateLimit d with
  | .error e => .thrown (handleError e)
  | .ok _ =>
    match getApiKey envKey with
    | .error e => .thrown (handleError e)
    | .ok _ =>
      match u with
      | none => .hangs
      | some (_, .error e) => .thrown (handleError e)
      | some (_, .ok none) => .thrown (handleError parseFailure)
      | some (_, .ok (some v)) => .ok v

/-- `explainCode`: direct `await`, returns `response.text || ""`, rethrows
classified errors. -/
def explainCode (d : RateLimitDecision) (envKey : Option String)
    (u : Upstream (Option String)) : OpResult String :=
  match checkRateLimit d with
  | .error e => .thrown (handleError e)
  | .ok _ =>
    match getApiKey envKey with
    | .error e => .thrown (handleError e)
    | .ok _ =>
      match u with
      | none => .hangs
      | some (_, .error e) => .thrown (handleError e)
      | some (_, .ok txt) => .ok (txt.getD "")

/-- `chatWithRepo`: same shape as `explainCode`. -/
def chatWithRepo (d : RateLimitDecision) (envKey : Option String)
    (u : Upstream (Option String)) : OpResult String :=
  match checkRateLimit d with
  | .error e => .thrown (handleError e)
  | .ok _ =>
    match getApiKey envKey with
    | .error e => .thrown (handleError e)
    | .ok _ =>
      match u with
      | none => .hangs
      | some (_, .error e) => .thrown (handleError e)
      | some (_, .ok txt) => .ok (txt.getD "")

/-- `generateSpeech`: direct `await`; the upstream payload is the optional
`inlineData.data`, returned as `inlineData?.data || ''`. -/
def generateSpeech (d : RateLimitDecision) (envKey : Option String)
    (u : Upstream (Option String)) : OpResult String :=
  match checkRateLimit d with
  | .error e => .thrown (handleError e)
  | .ok _ =>
    match getApiKey envKey with
    | .error e => .thrown (handleError e)
    | .ok _ =>
      match u with
      | none => .hangs
      | some (_, .error e) => .thrown (handleError e)
      | some (_, .ok txt) => .ok (txt.getD "")

/-- JS truthiness of an optional string (`undefined`, `null` and `''` are
falsy). -/
def strTruthy : Option String → Option String
  | some s => if s = "" then none else some s
  | none => none

/-! ## Video generation polling (`generateVisionVideo`,
`src/services/geminiService.ts` lines 264-291)

`while (!operation.done) { await sleep(5000); operation = await
ai.operations.getVideosOperation(...) }`: `statuses n` is the `done` flag
observed at the n-th check (`statuses 0` coming from the initial
`generateVideos` call), each re-check 5000 ms after the previous one.
`pollLoop statuses fuel` returns the index of the first `done` check if one
occurs within `fuel` checks; the JS loop has no fuel bound — it runs until
`done` and forever otherwise. -/

def pollLoop (statuses : ℕ → Bool) : ℕ → Option ℕ
  | 0 => none
  | fuel + 1 =>
    if statuses 0 then some 0
    else (pollLoop (fun n => statuses (n + 1)) fuel).map (· + 1)

/-- The loop terminates when some finite number of iterations reaches `done`. -/
def videoPollTerminates (statuses : ℕ → Bool) : Prop :=
  ∃ fuel, (pollLoop statuses fuel).isSome = true

/-- Wall-clock offset of the n-th poll check: a fixed 5000 ms interval. -/
def pollElapsed (n : ℕ) : ℕ := 5000 * n

theorem pollLoop_never_done (fuel : ℕ) : pollLoop (fun _ => false) fuel = none := by
  induction fuel with
  | zero => rfl
  | succ n ih =>
    rw [pollLoop, if_neg (by simp)]
    show (pollLoop (fun _ => false) n).map (· + 1) = none
    rw [ih]
    rfl

/-- `generateVisionVideo` (`src/services/geminiService.ts` lines 264-291):
rate-limit check, API key, `await ai.models.generateVideos` (the submission),
then the unbounded polling loop modelled by `pollLoop`, then the
download-link check (`if (!downloadLink) throw new AppError(API_ERROR, 500,
'Failed to generate video')`) and the fetch/object-URL of the link; the
`catch` rethrows the classified error.  No `withTimeout` anywhere.  `submit`
fulfils with the `done`-flag sequence the loop will observe; `link` is the
final operation's `response?.generatedVideos?.[0]?.video?.uri`; `fuel`
bounds only the model's loop unrolling — an outcome of `.hangs` for every
`fuel` is the JS operation pending forever (a never-settling await or a
never-done job). -/
def generateVisionVideo (d : RateLimitDecision) (envKey : Option String)
    (submit : Upstream (ℕ → Bool)) (link : Option String) (fuel : ℕ) : OpResult String :=
  match checkRateLimit d with
  | .error e => .thrown (handleError e)
  | .ok _ =>
    match getApiKey envKey with
    | .error e => .thrown (handleError e)
    | .ok _ =>
      match submit with
      | none => .hangs
      | some (_, .error e) => .thrown (handleError e)
      | some (_, .ok statuses) =>
        match pollLoop statuses fuel with
        | none => .hangs
        | some _ =>
          match strTruthy link with
          | none => .thrown (handleError (.app ⟨"API_ERROR", 500, "Failed to generate video"⟩))
          | some l => .ok l

/-- The `Partial<VulnerabilityRemediationPlan>` produced by
`JSON.parse(response.text || '{}')` in `generateVulnerabilityRemediation`:
every field may be absent. -/
structure RemediationPartial where
  title : Option String
  severity : Option String
  confidence : Option ℚ
  affectedFiles : Option (List String)
  fixSteps : Option (List String)
  verificationSteps : Option (List String)
  safePrompt : Option String
deriving DecidableEq, Repr

structure VulnerabilityRemediationPlan where
  title : String
  severity : String
  confidence : ℤ
  affectedFiles : List String
  fixSteps : List String
  verificationSteps : List String
  safePrompt : String
deriving DecidableEq, Repr

/-- `['low','medium','high','critical'].includes(String(parsed.severity).toLowerCase())
? lower-cased severity : 'medium'` — `String(undefined)` is `"undefined"`,
which is not in the list. -/
def validSeverity (s : Option String) : String :=
  match s with
  | none => "medium"
  | some v =>
    let lower : String := ⟨lowerJS v.data⟩
    if lower = "low" ∨ lower = "medium" ∨ lower = "high" ∨ lower = "critical" then lower
    else "medium"

/-- `Math.max(0, Math.min(100, Math.round(parsed.confidence)))`. -/
def clampConfidence (c : ℚ) : ℤ := max 0 (min 100 (jsRound c))

/-- `generateVulnerabilityRemediation` (`src/services/geminiService.ts`
lines 111-180): rate-limit check, API key, then a direct `await` of the
upstream call — no `withTimeout`; the parsed partial reply is defaulted
field by field (`title || 'Remediation Plan'`, validated severity, clamped
confidence defaulting to 70, arrays defaulting to `[]`,
`safePrompt || 'Fix vulnerability: …'`); the `catch` rethrows the classified
error.  The upstream payload is `none` when `response.text` fails
`JSON.parse` (an empty reply parses as `'{}'`, i.e. `some` of the
all-absent partial). -/
def generateVulnerabilityRemediation (d : RateLimitDecision) (envKey : Option String)
    (vulnerability : String) (u : Upstream (Option RemediationPartial)) :
    OpResult VulnerabilityRemediationPlan :=
  match checkRateLimit d with
  | .error e => .thrown (handleError e)
  | .ok _ =>
    match getApiKey envKey with
    | .error e => .thrown (handleError e)
    | .ok _ =>
      match u with
      | none => .hangs
      | some (_, .error e) => .thrown (handleError e)
      | some (_, .ok none) => .thrown (handleError parseFailure)
      | some (_, .ok (some p)) =>
        .ok ⟨(strTruthy p.title).getD "Remediation Plan",
          validSeverity p.severity,
          (match p.confidence with
           | some c => clampConfidence c
           | none => 70),
          p.affectedFiles.getD [],
          p.fixSteps.getD [],
          p.verificationSteps.getD [],
          (strTruthy p.safePrompt).getD ("Fix vulnerability: " ++ vulnerability)⟩

/-! ## Fallback-valued narrative operations (`src/services/geminiService.ts`)

`analyzeIssues` / `analyzePullRequests` / `analyzeTeamDynamics` /
`analyzeCodeOwnership` / `analyzeRecentActivity` / `analyzeTestingSetup` wrap
their whole body — including the rate-limit check and `getApiKey` — in a
`try` whose `catch` returns a fixed fallback value instead of rethrowing. -/

structure InsightSection where
  heading : String
  bullets : List String
deriving DecidableEq, Repr

structure InsightSummary where
  overview : String
  sections : List InsightSection
deriving DecidableEq, Repr

def analyzeIssues (d : RateLimitDecision) (envKey : Option String)
    (u : Upstream (Option InsightSummary)) : OpResult InsightSummary :=
  match checkRateLimit d with
  | .error _ => .ok ⟨"Issue analysis unavailable", []⟩
  | .ok _ =>
    match getApiKey envKey with
    | .error _ => .ok ⟨"Issue analysis unavailable", []⟩
    | .ok _ =>
      match u with
      | none => .hangs
      | some (_, .error _) => .ok ⟨"Issue analysis unavailable", []⟩
      | some (_, .ok none) => .ok ⟨"Issue analysis unavailable", []⟩
      | some (_, .ok (some v)) => .ok v

def analyzePullRequests (d : RateLimitDecision) (envKey : Option String)
    (u : Upstream (Option InsightSummary)) : OpResult InsightSummary :=
  match checkRateLimit d with
  | .error _ => .ok ⟨"PR analysis unavailable", []⟩
  | .ok _ =>
    match getApiKey envKey with
    | .error _ => .ok ⟨"PR analysis unavailable", []⟩
    | .ok _ =>
      match u with
      | none => .hangs
      | some (_, .error _) => .ok ⟨"PR analysis unavailable", []⟩
      | some (_, .ok none) => .ok ⟨"PR analysis unavailable", []⟩
      | some (_, .ok (some v)) => .ok v

def analyzeTeamDynamics (d : RateLimitDecision) (envKey : Option String)
    (u : Upstream (Option InsightSummary)) : OpResult InsightSummary :=
  match checkRateLimit d with
  | .error _ => .ok ⟨"Team analysis unavailable", []⟩
  | .ok _ =>
    match getApiKey envKey with
    | .error _ => .ok ⟨"Team analysis unavailable", []⟩
    | .ok _ =>
      match u with
      | none => .hangs
      | some (_, .error _) => .ok ⟨"Team analysis unavailable", []⟩
      | some (_, .ok none) => .ok ⟨"Team analysis unavailable", []⟩
      | some (_, .ok (some v)) => .ok v

/-- `analyzeCodeOwnership`: the prompt-side `fileOwnership` aggregation cannot
throw (every bucket is created non-empty before `sorted[0]` is read) and does
not appear in the returned value, so only the `await`ed reply text matters;
the success value is `response.text || 'Unable to analyze code ownership'`
and the `catch` returns `'Code ownership analysis unavailable'`. -/
def analyzeCodeOwnership (d : RateLimitDecision) (envKey : Option String)
    (u : Upstream (Option String)) : OpResult String :=
  match checkRateLimit d with
  | .error _ => .ok "Code ownership analysis unavailable"
  | .ok _ =>
    match getApiKey envKey with
    | .error _ => .ok "Code ownership analysis unavailable"
    | .ok _ =>
      match u with
      | none => .hangs
      | some (_, .error _) => .ok "Code ownership analysis unavailable"
      | some (_, .ok txt) =>
        .ok (match strTruthy txt with
          | some s => s
          | none => "Unable to analyze code ownership")

/-- One entry of the commit list returned by the source host:
`commit.commit?.author?.name`, `commit.author?.login` and the per-commit
changed-file names. -/
structure GitHubCommitLite where
  authorName : Option String
  authorLogin : Option String
  files : Option (List String)
deriving DecidableEq, Repr

/-- `commit.commit?.author?.name || commit.author?.login || 'Unknown'`. -/
def commitAuthor (c : GitHubCommitLite) : String :=
  match strTruthy c.authorName with
  | some n => n
  | none =>
    match strTruthy c.authorLogin with
    | some l => l
    | none => "Unknown"

/-- Increment the count of `k` in an insertion-ordered counting map
(a JS object used as `{ [key]: number }`). -/
def bumpCount : List (String × ℕ) → String → List (String × ℕ)
  | [], k => [(k, 1)]
  | (k', n) :: rest, k =>
    if k' = k then (k', n + 1) :: rest else (k', n) :: bumpCount rest k

def fileActivityOf (commits : List GitHubCommitLite) : List (String × ℕ) :=
  commits.foldl (fun m c =>
    match c.files with
    | some fs => fs.foldl bumpCount m
    | none => m) []

def authorActivityOf (commits : List GitHubCommitLite) : List (String × ℕ) :=
  commits.foldl (fun m c => bumpCount m (commitAuthor c)) []

/-- Stable descending sort by count, modelling
`.sort(([, a], [, b]) => b - a)` on the entry list. -/
def insertByCount (p : String × ℕ) : List (String × ℕ) → List (String × ℕ)
  | [] => [p]
  | q :: rest => if q.2 < p.2 then p :: q :: rest else q :: insertByCount p rest

def sortByCountDesc (l : List (String × ℕ)) : List (String × ℕ) :=
  l.foldl (fun acc p => insertByCount p acc) []

structure ActivityReport where
  summary : String
  hotFiles : List (String × ℕ)
  totalCommits : ℕ
  activeDevs : ℕ
deriving DecidableEq, Repr

def activityFallback : ActivityReport :=
  ⟨"Activity analysis unavailable", [], 0, 0⟩

/-- `analyzeRecentActivity`: the success value aggregates the commit list
(hot files, totals, distinct authors) around `response.text`; the `catch`
returns the zeroed fallback object. -/
def analyzeRecentActivity (d : RateLimitDecision) (envKey : Option String)
    (commits : List GitHubCommitLite) (u : Upstream (Option String)) :
    OpResult ActivityReport :=
  match checkRateLimit d with
  | .error _ => .ok activityFallback
  | .ok _ =>
    match getApiKey envKey with
    | .error _ => .ok activityFallback
    | .ok _ =>
      match u with
      | none => .hangs
      | some (_, .error _) => .ok activityFallback
      | some (_, .ok txt) =>
        .ok ⟨(match strTruthy txt with
            | some s => s
            | none => "Unable to analyze activity"),
          (sortByCountDesc (fileActivityOf commits)).take 10,
          commits.length,
          (authorActivityOf commits).length⟩

structure TestingSetupReport where
  hasTests : Bool
  testFramework : String
  testCommand : String
  testFiles : List String
  guidance : String
deriving DecidableEq, Repr

def testingFallback : TestingSetupReport :=
  ⟨false, "Unknown", "Unknown", [], "Unable to determine testing setup"⟩

def analyzeTestingSetup (d : RateLimitDecision) (envKey : Option String)
    (u : Upstream (Option TestingSetupReport)) : OpResult TestingSetupReport :=
  match checkRateLimit d with
  | .error _ => .ok testingFallback
  | .ok _ =>
    match getApiKey envKey with
    | .error _ => .ok testingFallback
    | .ok _ =>
      match u with
      | none => .hangs
      | some (_, .error _) => .ok testingFallback
      | some (_, .ok none) => .ok testingFallback
      | some (_, .ok (some v)) => .ok v

/-- C10: each of the six narrative/insight operations never throws — on every
input it either returns a value or (only when the upstream call never
settles) stays pending; a rate-limit denial, a missing API key, an upstream
rejection and a malformed reply each produce the operation's fixed fallback
value — unlike `analyzeRepository` and `generateOnboardingGuide`, whose catch
rethrows the classified error. -/
theorem insight_ops_never_throw :
    ((∀ (d : RateLimitDecision) (k : Option String) (u : Upstream (Option InsightSummary)),
        (∃ v, analyzeIssues d k u = OpResult.ok v) ∨ analyzeIssues d k u = OpResult.hangs) ∧
      (∀ u, analyzeIssues ⟨false, some 5⟩ (some "k") u
        = OpResult.ok ⟨"Issue analysis unavailable", []⟩) ∧
      (∀ u, analyzeIssues ⟨true, none⟩ none u
        = OpResult.ok ⟨"Issue analysis unavailable", []⟩) ∧
      (∀ t th, analyzeIssues ⟨true, none⟩ (some "k") (some (t, .error th))
        = OpResult.ok ⟨"Issue analysis unavailable", []⟩) ∧
      (∀ t, analyzeIssues ⟨true, none⟩ (some "k") (some (t, .ok none))
        = OpResult.ok ⟨"Issue analysis unavailable", []⟩)) ∧
    ((∀ (d : RateLimitDecision) (k : Option String) (u : Upstream (Option InsightSummary)),
        (∃ v, analyzePullRequests d k u = OpResult.ok v)
          ∨ analyzePullRequests d k u = OpResult.hangs) ∧
      (∀ u, analyzePullRequests ⟨false, some 5⟩ (some "k") u
        = OpResult.ok ⟨"PR analysis unavailable", []⟩) ∧
      (∀ u, analyzePullRequests ⟨true, none⟩ none u
        = OpResult.ok ⟨"PR analysis unavailable", []⟩) ∧
      (∀ t th, analyzePullRequests ⟨true, none⟩ (some "k") (some (t, .error th))
        = OpResult.ok ⟨"PR analysis unavailable", []⟩) ∧
      (∀ t, analyzePullRequests ⟨true, none⟩ (some "k") (some (t, .ok none))
        = OpResult.ok ⟨"PR analysis unavailable", []⟩)) ∧
    ((∀ (d : RateLimitDecision) (k : Option String) (u : Upstream (Option InsightSummary)),
        (∃ v, analyzeTeamDynamics d k u = OpResult.ok v)
          ∨ analyzeTeamDynamics d k u = OpResult.hangs) ∧
      (∀ u, analyzeTeamDynamics ⟨false, some 5⟩ (some "k") u
        = OpResult.ok ⟨"Team analysis unavailable", []⟩) ∧
      (∀ u, analyzeTeamDynamics ⟨true, none⟩ none u
        = OpResult.ok ⟨"Team analysis unavailable", []⟩) ∧
      (∀ t th, analyzeTeamDynamics ⟨true, none⟩ (some "k") (some (t, .error th))
        = OpResult.ok ⟨"Team analysis unavailable", []⟩) ∧
      (∀ t, analyzeTeamDynamics ⟨true, none⟩ (some "k") (some (t, .ok none))
        = OpResult.ok ⟨"Team analysis unavailable", []⟩)) ∧
    ((∀ (d : RateLimitDecision) (k : Option String) (u : Upstream (Option String)),
        (∃ v, analyzeCodeOwnership d k u = OpResult.ok v)
          ∨ analyzeCodeOwnership d k u = OpResult.hangs) ∧
      (∀ u, analyzeCodeOwnership ⟨false, some 5⟩ (some "k") u
        = OpResult.ok "Code ownership analysis unavailable") ∧
      (∀ u, analyzeCodeOwnership ⟨true, none⟩ none u
        = OpResult.ok "Code ownership analysis unavailable") ∧
      (∀ t th, analyzeCodeOwnership ⟨true, none⟩ (some "k") (some (t, .error th))
        = OpResult.ok "Code ownership analysis unavailable")) ∧
    ((∀ (d : RateLimitDecision) (k : Option String) (cs : List GitHubCommitLite)
        (u : Upstream (Option String)),
        (∃ v, analyzeRecentActivity d k cs u = OpResult.ok v)
          ∨ analyzeRecentActivity d k cs u = OpResult.hangs) ∧
      (∀ cs u, analyzeRecentActivity ⟨false, some 5⟩ (some "k") cs u
        = OpResult.ok activityFallback) ∧
      (∀ cs u, analyzeRecentActivity ⟨true, none⟩ none cs u
        = OpResult.ok activityFallback) ∧
      (∀ cs t th, analyzeRecentActivity ⟨true, none⟩ (some "k") cs (some (t, .error th))
        = OpResult.ok activityFallback)) ∧
    ((∀ (d : RateLimitDecision) (k : Option String) (u : Upstream (Option TestingSetupReport)),
        (∃ v, analyzeTestingSetup d k u = OpResult.ok v)
          ∨ analyzeTestingSetup d k u = OpResult.hangs) ∧
      (∀ u, analyzeTestingSetup ⟨false, some 5⟩ (some "k") u = OpResult.ok testingFallback) ∧
      (∀ u, analyzeTestingSetup ⟨true, none⟩ none u = OpResult.ok testingFallback) ∧
      (∀ t th, analyzeTestingSetup ⟨true, none⟩ (some "k") (some (t, .error th))
        = OpResult.ok testingFallback) ∧
      (∀ t, analyzeTestingSetup ⟨true, none⟩ (some "k") (some (t, .ok none))
        = OpResult.ok testingFallback)) ∧
    ((∀ th, analyzeRepository ℕ ⟨true, none⟩ (some "k") none (some (0, .error th))
        = OpResult.thrown (handleError th)) ∧
      (∀ th, generateOnboardingGuide ⟨true, none⟩ (some "k") (some (0, .error th))
        = OpResult.thrown (handleError th)))
    := by
  refine ⟨⟨?_, fun u => rfl, fun u => rfl, fun t th => rfl, fun t => rfl⟩,
    ⟨?_, fun u => rfl, fun u => rfl, fun t th => rfl, fun t => rfl⟩,
    ⟨?_, fun u => rfl, fun u => rfl, fun t th => rfl, fun t => rfl⟩,
    ⟨?_, fun u => rfl, fun u => rfl, fun t th => rfl⟩,
    ⟨?_, fun cs u => rfl, fun cs u => rfl, fun cs t th => rfl⟩,
    ⟨?_, fun u => rfl, fun u => rfl, fun t th => rfl, fun t => rfl⟩,
    fun th => ?_, fun th => rfl⟩
  case _ =>
    intro d k u
    unfold analyzeIssues
    repeat' split
    all_goals first
      | exact Or.inl ⟨_, rfl⟩
      | exact Or.inr rfl
  case _ =>
    intro d k u
    unfold analyzePullRequests
    repeat' split
    all_goals first
      | exact Or.inl ⟨_, rfl⟩
      | exact Or.inr rfl
  case _ =>
    intro d k u
    unfold analyzeTeamDynamics
    repeat' split
    all_goals first
      | exact Or.inl ⟨_, rfl⟩
      | exact Or.inr rfl
  case _ =>
    intro d k u
    unfold analyzeCodeOwnership
    repeat' split
    all_goals first
      | exact Or.inl ⟨_, rfl⟩
      | exact Or.inr rfl
  case _ =>
    intro d k cs u
    unfold analyzeRecentActivity
    repeat' split
    all_goals first
      | exact Or.inl ⟨_, rfl⟩
      | exact Or.inr rfl
  case _ =>
    intro d k u
    unfold analyzeTestingSetup
    repeat' split
    all_goals first
      | exact Or.inl ⟨_, rfl⟩
      | exact Or.inr rfl
  case _ =>
    show analyzeRepository ℕ ⟨true, none⟩ (some "k") none (some (0, Except.error th))
        = OpResult.thrown (handleError th)
    unfold analyzeRepository checkRateLimit getApiKey withTimeout
    rw [if_pos rfl]
    norm_num [getTimeoutMs]
    rw [if_neg (by decide : ¬("k" = "" ∨ "k" = "your_gemini_api_key_here"))]

/-- C8 is false as stated: `performDeepAudit` does not race its upstream call
against any timeout — on an upstream call that never settles it hangs forever
instead of producing a timeout-classified failure, whereas
`analyzeRepository` (the only operation wrapped in `withTimeout`) resolves to
the distinct 504 timeout error in the same situation. -/
theorem performDeepAudit_hangs_counterexample :
    performDeepAudit ⟨true, none⟩ (some "key") none = OpResult.hangs ∧
    analyzeRepository ℕ ⟨true, none⟩ (some "key") none none
      = OpResult.thrown (timeoutError "Repository analysis" 90000) := by
  constructor
  · rfl
  · rfl

/-- C8 (amended): only `analyzeRepository` races its upstream call against the
configurable wall-clock budget `getTimeoutMs` (default 90000 ms) — an upstream
call that settles after the budget, or never settles, yields the distinct
504 timeout-classified `AppError`.  Every other gateway operation — the deep
audit, the remediation plan, the onboarding guide, the insight narratives,
the ownership/activity/testing analyses, file explanation, chat, speech and
video — awaits its upstream call directly, with no timeout race: on an
upstream call that never settles each of them hangs indefinitely (for the
video operation both on a never-settling submission and on a job that never
reports done). -/
theorem gateway_timeout_spec (d : RateLimitDecision) (k : String) (envTO : Option ℚ)
    (hd : d.allowed = true) (hk : ¬(k = "" ∨ k = "your_gemini_api_key_here")) :
    (∀ (α : Type), analyzeRepository α d (some k) envTO none
      = OpResult.thrown (timeoutError "Repository analysis" (getTimeoutMs envTO))) ∧
    (∀ (α : Type) (t : ℚ) (r : Except Thrown (Option α)), getTimeoutMs envTO < t →
      analyzeRepository α d (some k) envTO (some (t, r))
        = OpResult.thrown (timeoutError "Repository analysis" (getTimeoutMs envTO))) ∧
    performDeepAudit d (some k) none = OpResult.hangs ∧
    generateOnboardingGuide d (some k) none = OpResult.hangs ∧
    explainCode d (some k) none = OpResult.hangs ∧
    chatWithRepo d (some k) none = OpResult.hangs ∧
    generateSpeech d (some k) none = OpResult.hangs ∧
    analyzeIssues d (some k) none = OpResult.hangs ∧
    analyzePullRequests d (some k) none = OpResult.hangs ∧
    analyzeTeamDynamics d (some k) none = OpResult.hangs ∧
    analyzeCodeOwnership d (some k) none = OpResult.hangs ∧
    (∀ cs, analyzeRecentActivity d (some k) cs none = OpResult.hangs) ∧
    analyzeTestingSetup d (some k) none = OpResult.hangs ∧
    (∀ vuln, generateVulnerabilityRemediation d (some k) vuln none = OpResult.hangs) ∧
    (∀ link fuel, generateVisionVideo d (some k) none link fuel = OpResult.hangs) ∧
    (∀ t link fuel,
      generateVisionVideo d (some k) (some (t, Except.ok (fun _ => false))) link fuel
        = OpResult.hangs) := by
  have hrate : checkRateLimit d = Except.ok () := by
    rw [checkRateLimit, if_pos hd]
  have hkey : getApiKey (some k) = Except.ok k := by
    rw [getApiKey]
    exact if_neg hk
  refine ⟨?_, ?_, ?_, ?_, ?_, ?_, ?_, ?_, ?_, ?_, ?_, fun cs => ?_, ?_,
    fun vuln => ?_, fun link fuel => ?_, fun t link fuel => ?_⟩
  · intro α
    unfold analyzeRepository
    rw [hrate, hkey]
    rfl
  · intro α t r hlt
    have hw : withTimeout (Option α) (getTimeoutMs envTO) "Repository analysis" (some (t, r))
        = Except.error (Thrown.app (timeoutError "Repository analysis" (getTimeoutMs envTO))) := by
      simp only [withTimeout]
      rw [if_neg (not_le.mpr hlt)]
    unfold analyzeRepository
    rw [hrate, hkey, hw]
    rfl
  · unfold performDeepAudit; rw [hrate, hkey]
  · unfold generateOnboardingGuide; rw [hrate, hkey]
  · unfold explainCode; rw [hrate, hkey]
  · unfold chatWithRepo; rw [hrate, hkey]
  · unfold generateSpeech; rw [hrate, hkey]
  · unfold analyzeIssues; rw [hrate, hkey]
  · unfold analyzePullRequests; rw [hrate, hkey]
  · unfold analyzeTeamDynamics; rw [hrate, hkey]
  · unfold analyzeCodeOwnership; rw [hrate, hkey]
  · unfold analyzeRecentActivity; rw [hrate, hkey]
  · unfold analyzeTestingSetup; rw [hrate, hkey]
  · unfold generateVulnerabilityRemediation; rw [hrate, hkey]
  · unfold generateVisionVideo; rw [hrate, hkey]
  · unfold generateVisionVideo
    rw [hrate, hkey]
    simp only [pollLoop_never_done]


theorem gateway_timeout_spec_witness :
    (⟨true, none⟩ : RateLimitDecision).allowed = true ∧
    ¬("key" = "" ∨ "key" = "your_gemini_api_key_here") ∧
    (90000 : ℚ) < 90001 ∧
    analyzeRepository ℕ ⟨true, none⟩ (some "key") none (some (90001, Except.ok (some 3)))
      = OpResult.thrown (timeoutError "Repository analysis" (getTimeoutMs none)) ∧
    explainCode ⟨true, none⟩ (some "key") none = OpResult.hangs ∧
    generateVulnerabilityRemediation ⟨true, none⟩ (some "key") "SQL injection" none
      = OpResult.hangs ∧
    generateVisionVideo ⟨true, none⟩ (some "key") none (some "blob:video") 3
      = OpResult.hangs ∧
    generateVisionVideo ⟨true, none⟩ (some "key")
        (some (0, Except.ok (fun _ => false))) (some "blob:video") 3
      = OpResult.hangs := by
  have h := gateway_timeout_spec ⟨true, none⟩ "key" none rfl (by decide)
  refine ⟨rfl, by decide, by norm_num, ?_, h.2.2.2.2.1,
    h.2.2.2.2.2.2.2.2.2.2.2.2.2.1 "SQL injection",
    h.2.2.2.2.2.2.2.2.2.2.2.2.2.2.1 (some "blob:video") 3,
    h.2.2.2.2.2.2.2.2.2.2.2.2.2.2.2 0 (some "blob:video") 3⟩
  exact h.2.1 ℕ 90001 (Except.ok (some 3)) (by norm_num [getTimeoutMs])

/-- C9 is false as stated: the polling loop of `generateVisionVideo` has no
maximum ceiling — on a job that never reports a terminal state, no finite
number of loop iterations completes (the loop polls forever), and no
timeout-classified failure is ever produced. -/
theorem videoPoll_counterexample :
    (∀ fuel, pollLoop (fun _ => false) fuel = none) ∧
    (videoPollTerminates (fun _ => false) → False) := by
  have hloop : ∀ fuel, pollLoop (fun _ => false) fuel = none := by
    intro fuel
    induction fuel with
    | zero => rfl
    | succ n ih =>
      show pollLoop (fun _ => false) (n + 1) = none
      rw [pollLoop, if_neg (by simp)]
      show (pollLoop (fun _ => false) n).map (· + 1) = none
      rw [ih]
      rfl
  refine ⟨hloop, ?_⟩
  rintro ⟨fuel, hsome⟩
  rw [hloop fuel] at hsome
  cases hsome

/-- C9 (amended): the loop polls at a fixed 5000 ms interval with no maximum
ceiling: it terminates exactly when the job eventually reports a terminal
state, resolving at the first `done` check (after `5000·n` ms of polling
delay), and on a never-terminal job it polls forever instead of failing
closed with a timeout. -/
theorem videoPoll_spec (statuses : ℕ → Bool) :
    (videoPollTerminates statuses ↔ ∃ n, statuses n = true) ∧
    (∀ fuel n, pollLoop statuses fuel = some n →
      statuses n = true ∧ (∀ m, m < n → statuses m = false) ∧ pollElapsed n = 5000 * n) := by
  have hfirst : ∀ (fuel : ℕ) (st : ℕ → Bool) (n : ℕ), pollLoop st fuel = some n →
      st n = true ∧ (∀ m, m < n → st m = false) := by
    intro fuel
    induction fuel with
    | zero => intro st n h; cases h
    | succ f ih =>
      intro st n h
      rw [pollLoop] at h
      by_cases h0 : st 0
      · rw [if_pos h0] at h
        cases h
        exact ⟨h0, fun m hm => absurd hm (Nat.not_lt_zero m)⟩
      · rw [if_neg h0] at h
        rw [Option.map_eq_some'] at h
        obtain ⟨n', hn', rfl⟩ := h
        obtain ⟨h1, h2⟩ := ih _ n' hn'
        refine ⟨h1, fun m hm => ?_⟩
        cases m with
        | zero => exact Bool.eq_false_iff.mpr h0
        | succ m' => exact h2 m' (Nat.lt_of_succ_lt_succ hm)
  have hterm : ∀ (n : ℕ) (st : ℕ → Bool), st n = true →
      (pollLoop st (n + 1)).isSome = true := by
    intro n
    induction n with
    | zero =>
      intro st h
      rw [pollLoop, if_pos h]
      rfl
    | succ n' ih =>
      intro st h
      show (pollLoop st (n' + 2)).isSome = true
      rw [pollLoop]
      by_cases h0 : st 0
      · rw [if_pos h0]; rfl
      · rw [if_neg h0]
        have := ih (fun m => st (m + 1)) h
        rw [Option.isSome_map']
        exact this
  constructor
  · constructor
    · rintro ⟨fuel, hsome⟩
      rw [Option.isSome_iff_exists] at hsome
      obtain ⟨n, hn⟩ := hsome
      exact ⟨n, (hfirst fuel statuses n hn).1⟩
    · rintro ⟨n, hn⟩
      exact ⟨n + 1, hterm n statuses hn⟩
  · intro fuel n h
    obtain ⟨h1, h2⟩ := hfirst fuel statuses n h
    exact ⟨h1, h2, rfl⟩

theorem videoPoll_spec_witness :
    pollLoop (fun n => n == 2) 5 = some 2 ∧
    (fun n : ℕ => n == 2) 2 = true ∧
    (∀ m, m < 2 → (fun n : ℕ => n == 2) m = false) ∧
    videoPollTerminates (fun n => n == 2) := by
  have h := (videoPoll_spec (fun n => n == 2)).2 5 2 (by decide)
  refine ⟨by decide, h.1, h.2.1, ?_⟩
  exact ((videoPoll_spec (fun n => n == 2)).1).mpr ⟨2, by decide⟩

/-! ## Flow-graph normalization (the `useEffect` on the `AnalysisReport`,
`src/SECURITY.md` lines 1044-1085)

`analysis.flowNodes` / `analysis.flowEdges` arrive as untrusted JSON: a
non-array field is modelled as `none`, and each element may itself be
null/undefined (`Option`).  Nodes receive safe ids/labels/positions; when no
node survives, `buildFallbackBlueprint` over the repository structure supplies
the node set; edges are filtered against the id set of the exposed nodes. -/

structure RawFlowNode where
  id : Option String
  label : Option String
  pos : Option (ℚ × ℚ)
  ntype : Option String
deriving DecidableEq, Repr

structure RawFlowEdge where
  id : Option String
  source : Option String
  target : Option String
  label : Option String
  animated : Option Bool
deriving DecidableEq, Repr

structure FlowNode where
  id : String
  label : String
  posX : ℚ
  posY : ℚ
  ntype : Option String
deriving DecidableEq, Repr

structure FlowEdge where
  id : String
  source : String
  target : String
  label : Option String
  animated : Option Bool
deriving DecidableEq, Repr

def mapWithIndex {α β : Type} (f : ℕ → α → β) : ℕ → List α → List β
  | _, [] => []
  | i, a :: l => f i a :: mapWithIndex f (i + 1) l

theorem mem_mapWithIndex {α β : Type} (f : ℕ → α → β) (i : ℕ) (l : List α) (b : β)
    (h : b ∈ mapWithIndex f i l) : ∃ n a, a ∈ l ∧ b = f n a := by
  induction l generalizing i with
  | nil => cases h
  | cons a l ih =>
    rcases List.mem_cons.mp h with h1 | h1
    · exact ⟨i, a, List.mem_cons_self a l, h1⟩
    · obtain ⟨n, a', ha', hb⟩ := ih (i + 1) h1
      exact ⟨n, a', List.mem_cons_of_mem a ha', hb⟩

def normalizeNode (index : ℕ) (n? : Option RawFlowNode) : FlowNode :=
  let fallbackId := "node-" ++ toString (index + 1)
  let safeId := match n? with
    | none => fallbackId
    | some n => (strTruthy n.id).getD fallbackId
  let safeLabel := match n? with
    | none => safeId
    | some n => (strTruthy n.label).getD safeId
  match n? with
  | none => ⟨safeId, safeLabel, ((index % 4 : ℕ) : ℚ) * 220, ((index / 4 : ℕ) : ℚ) * 160, none⟩
  | some n =>
    match n.pos with
    | some p => ⟨safeId, safeLabel, p.1, p.2, n.ntype⟩
    | none => ⟨safeId, safeLabel, ((index % 4 : ℕ) : ℚ) * 220, ((index / 4 : ℕ) : ℚ) * 160, n.ntype⟩

structure FileNodeLite where
  path : String
  name : String
deriving DecidableEq, Repr

/-- `Math.ceil(Math.sqrt(n))` on a natural number. -/
def ceilSqrt (n : ℕ) : ℕ :=
  if Nat.sqrt n * Nat.sqrt n = n then Nat.sqrt n else Nat.sqrt n + 1

/-- `buildFallbackBlueprint` (`src/SECURITY.md` line 831): the first
`maxNodes` top-level structure entries on a grid, ids given by their paths. -/
def buildFallbackBlueprint (nodes : List FileNodeLite) (maxNodes : ℕ) : List FlowNode :=
  let topNodes := nodes.take maxNodes
  let columns := ceilSqrt (if topNodes.length = 0 then 1 else topNodes.length)
  mapWithIndex (fun index node =>
    ⟨node.path, (if node.name = "" then node.path else node.name),
      ((index % columns : ℕ) : ℚ) * 240, ((index / columns : ℕ) : ℚ) * 170, none⟩) 0 topNodes

/-- The normalization `useEffect`: safe nodes (or the fallback blueprint when
none survive), then edges filtered to those whose truthy `source` and
`target` are ids of the exposed node set, re-indexed with safe edge ids.
Returns `(setNodes payload, setEdges payload)`. -/
def normalizeFlow (flowNodes : Option (List (Option RawFlowNode)))
    (flowEdges : Option (List (Option RawFlowEdge)))
    (structTop : List FileNodeLite) : List FlowNode × List FlowEdge :=
  let rawNodes := flowNodes.getD []
  let normalizedNodes := mapWithIndex normalizeNode 0 rawNodes
  let fallbackNodes :=
    if normalizedNodes.length = 0 then buildFallbackBlueprint structTop 12 else normalizedNodes
  let nodeIds := fallbackNodes.map (·.id)
  let rawEdges := flowEdges.getD []
  let kept := rawEdges.filterMap (fun e? =>
    match e? with
    | none => none
    | some e =>
      match strTruthy e.source, strTruthy e.target with
      | some s, some t => if s ∈ nodeIds ∧ t ∈ nodeIds then some e else none
      | _, _ => none)
  let normalizedEdges := mapWithIndex (fun index e =>
    (⟨(strTruthy e.id).getD ("edge-" ++ toString (index + 1)),
      e.source.getD "", e.target.getD "", e.label, e.animated⟩ : FlowEdge)) 0 kept
  (fallbackNodes, normalizedEdges)

theorem strTruthy_eq_some {o : Option String} {s : String} (h : strTruthy o = some s) :
    o = some s := by
  cases o with
  | none => cases h
  | some s' =>
    rw [strTruthy] at h
    by_cases hs : s' = ""
    · rw [if_pos hs] at h; cases h
    · rw [if_neg hs] at h
      exact h

/-- C6: every edge exposed by the normalization references node ids present in
the exposed node set of the same report — raw edges with a missing, empty or
unknown endpoint are dropped by the filter before `setEdges`. -/
theorem normalizeFlow_edges_closed (fn : Option (List (Option RawFlowNode)))
    (fe : Option (List (Option RawFlowEdge))) (structTop : List FileNodeLite)
    (e : FlowEdge) (he : e ∈ (normalizeFlow fn fe structTop).2) :
    e.source ∈ (normalizeFlow fn fe structTop).1.map (·.id) ∧
    e.target ∈ (normalizeFlow fn fe structTop).1.map (·.id) := by
  rw [normalizeFlow] at he ⊢
  dsimp only at he ⊢
  obtain ⟨n, e', he', heq⟩ := mem_mapWithIndex _ 0 _ e he
  rw [List.mem_filterMap] at he'
  obtain ⟨raw, _, hraw⟩ := he'
  cases raw with
  | none => cases hraw
  | some e0 =>
    dsimp only at hraw
    split at hraw
    case _ s t hs ht =>
      by_cases hcond :
          s ∈ (if (mapWithIndex normalizeNode 0 (fn.getD [])).length = 0 then
                buildFallbackBlueprint structTop 12
              else mapWithIndex normalizeNode 0 (fn.getD [])).map (·.id)
            ∧ t ∈ (if (mapWithIndex normalizeNode 0 (fn.getD [])).length = 0 then
                buildFallbackBlueprint structTop 12
              else mapWithIndex normalizeNode 0 (fn.getD [])).map (·.id)
      · rw [if_pos hcond] at hraw
        cases hraw
        rw [heq]
        dsimp only
        rw [strTruthy_eq_some hs, strTruthy_eq_some ht]
        exact ⟨hcond.1, hcond.2⟩
      · rw [if_neg hcond] at hraw
        cases hraw
    all_goals cases hraw

theorem normalizeFlow_edges_closed_witness :
    (⟨"edge-1", "a", "a", none, none⟩ : FlowEdge)
      ∈ (normalizeFlow (some [some ⟨some "a", some "A", some (0, 0), none⟩])
          (some [some ⟨none, some "a", some "a", none, none⟩,
                 some ⟨none, some "a", some "ghost", none, none⟩]) []).2 ∧
    "a" ∈ (normalizeFlow (some [some ⟨some "a", some "A", some (0, 0), none⟩])
        (some [some ⟨none, some "a", some "a", none, none⟩,
               some ⟨none, some "a", some "ghost", none, none⟩]) []).1.map (·.id) ∧
    (normalizeFlow (some [some ⟨some "a", some "A", some (0, 0), none⟩])
        (some [some ⟨none, some "a", some "a", none, none⟩,
               some ⟨none, some "a", some "ghost", none, none⟩]) []).2.length = 1 := by
  refine ⟨by decide, ?_, by decide⟩
  exact (normalizeFlow_edges_closed (some [some ⟨some "a", some "A", some (0, 0), none⟩])
    (some [some ⟨none, some "a", some "a", none, none⟩,
           some ⟨none, some "a", some "ghost", none, none⟩]) []
    ⟨"edge-1", "a", "a", none, none⟩ (by decide)).1

/-! ## Background-insights merge (`runBackgroundInsights`,
`src/SECURITY.md` lines 1339-1368)

After the base `OnboardingGuide` is produced, `runBackgroundInsights` awaits
the three optional enrichments with `Promise.all` and merges them additively:
`setOnboardingGuide(prev => prev ? { ...prev, codeOwnership, recentActivity,
testingSetup } : prev)`.  If the recent-commit prefetch came back empty, or
one of the awaited promises never settles (so `Promise.all` never resolves),
or a promise rejects (caught and only logged), the guide is left untouched. -/

structure OnboardingGuide where
  quickStart : String
  criticalFiles : List String
  recommendedPath : List String
  commonTasks : List (String × List String)
  setupInstructions : String
  codeOwnership : Option String
  recentActivity : Option ActivityReport
  testingSetup : Option TestingSetupReport
deriving DecidableEq, Repr

/-- The guide as first produced by `generateOnboardingGuide`: base fields
only, no enrichments. -/
def ofGuideFields (f : OnboardingGuideFields) : OnboardingGuide :=
  ⟨f.quickStart, f.criticalFiles, f.recommendedPath, f.commonTasks,
    f.setupInstructions, none, none, none⟩

/-- The additive spread merge
`{ ...prev, codeOwnership, recentActivity, testingSetup }`. -/
def mergeInsights (guide : OnboardingGuide) (ownership : String)
    (activity : ActivityReport) (testing : TestingSetupReport) : OnboardingGuide :=
  { guide with
    codeOwnership := some ownership
    recentActivity := some activity
    testingSetup := some testing }

def runBackgroundInsights (guide : OnboardingGuide)
    (recentCommits : List GitHubCommitLite)
    (dO dA dT : RateLimitDecision) (envKey : Option String)
    (uO : Upstream (Option String)) (uA : Upstream (Option String))
    (uT : Upstream (Option TestingSetupReport)) : OnboardingGuide :=
  if recentCommits.length > 0 then
    match analyzeCodeOwnership dO envKey uO,
        analyzeRecentActivity dA envKey recentCommits uA,
        analyzeTestingSetup dT envKey uT with
    | .ok o, .ok a, .ok t => mergeInsights guide o a t
    | _, _, _ => guide
  else guide

/-- C7: for every produced base guide, the background enrichment is purely
additive: all five base fields of the resulting guide equal those of the
input guide whatever the three enrichment outcomes are — a failing enrichment
surfaces as its fallback value (the three operations never throw) and
displaces nothing; and when the three operations return values `o`, `a`, `t`,
the result is exactly the input guide with the three enrichment fields set to
them, each independent of the other two outcomes. -/
theorem backgroundInsights_additive (guide : OnboardingGuide)
    (cs : List GitHubCommitLite) (dO dA dT : RateLimitDecision) (envKey : Option String)
    (uO uA : Upstream (Option String)) (uT : Upstream (Option TestingSetupReport)) :
    ((runBackgroundInsights guide cs dO dA dT envKey uO uA uT).quickStart
        = guide.quickStart ∧
      (runBackgroundInsights guide cs dO dA dT envKey uO uA uT).criticalFiles
        = guide.criticalFiles ∧
      (runBackgroundInsights guide cs dO dA dT envKey uO uA uT).recommendedPath
        = guide.recommendedPath ∧
      (runBackgroundInsights guide cs dO dA dT envKey uO uA uT).commonTasks
        = guide.commonTasks ∧
      (runBackgroundInsights guide cs dO dA dT envKey uO uA uT).setupInstructions
        = guide.setupInstructions) ∧
    (∀ o a t, analyzeCodeOwnership dO envKey uO = OpResult.ok o →
      analyzeRecentActivity dA envKey cs uA = OpResult.ok a →
      analyzeTestingSetup dT envKey uT = OpResult.ok t →
      0 < cs.length →
      runBackgroundInsights guide cs dO dA dT envKey uO uA uT
        = { guide with
            codeOwnership := some o
            recentActivity := some a
            testingSetup := some t }) := by
  constructor
  · refine ⟨?_, ?_, ?_, ?_, ?_⟩ <;>
      · rw [runBackgroundInsights]
        split
        · split <;> rfl
        · rfl
  · intro o a t ho ha ht hlen
    rw [runBackgroundInsights, if_pos hlen, ho, ha, ht]
    rfl

theorem backgroundInsights_additive_witness :
    analyzeCodeOwnership ⟨true, none⟩ (some "key") (some (0, Except.ok (some "Ada owns src")))
      = OpResult.ok "Ada owns src" ∧
    analyzeRecentActivity ⟨false, some 9⟩ (some "key")
        [⟨some "Ada", none, some ["src/a.ts"]⟩] (some (0, Except.ok (some "busy")))
      = OpResult.ok activityFallback ∧
    analyzeTestingSetup ⟨true, none⟩ (some "key")
        (some (0, Except.ok (some ⟨true, "Vitest", "npm test", ["a.spec.ts"], "run it"⟩)))
      = OpResult.ok ⟨true, "Vitest", "npm test", ["a.spec.ts"], "run it"⟩ ∧
    0 < ([⟨some "Ada", none, some ["src/a.ts"]⟩] : List GitHubCommitLite).length ∧
    runBackgroundInsights
        (ofGuideFields ⟨"qs", ["README.md"], ["read src"], [("build", ["npm run build"])], "npm i"⟩)
        [⟨some "Ada", none, some ["src/a.ts"]⟩]
        ⟨true, none⟩ ⟨false, some 9⟩ ⟨true, none⟩ (some "key")
        (some (0, Except.ok (some "Ada owns src")))
        (some (0, Except.ok (some "busy")))
        (some (0, Except.ok (some ⟨true, "Vitest", "npm test", ["a.spec.ts"], "run it"⟩)))
      = { ofGuideFields
            ⟨"qs", ["README.md"], ["read src"], [("build", ["npm run build"])], "npm i"⟩ with
          codeOwnership := some "Ada owns src"
          recentActivity := some activityFallback
          testingSetup := some ⟨true, "Vitest", "npm test", ["a.spec.ts"], "run it"⟩ } := by
  refine ⟨rfl, rfl, rfl, by decide, ?_⟩
  exact (backgroundInsights_additive
      (ofGuideFields ⟨"qs", ["README.md"], ["read src"], [("build", ["npm run build"])], "npm i"⟩)
      [⟨some "Ada", none, some ["src/a.ts"]⟩]
      ⟨true, none⟩ ⟨false, some 9⟩ ⟨true, none⟩ (some "key")
      (some (0, Except.ok (some "Ada owns src")))
      (some (0, Except.ok (some "busy")))
      (some (0, Except.ok (some ⟨true, "Vitest", "npm test", ["a.spec.ts"], "run it"⟩)))).2
    "Ada owns src" activityFallback ⟨true, "Vitest", "npm test", ["a.spec.ts"], "run it"⟩
    rfl rfl rfl (by decide)

end GitMindPro
